import Mathlib

/-!
Verification development for `compute_RMP_ConvectionVelocity.py`
(class `RMP_ConvectionVelocityCalculator`).

The Python source is shallowly embedded below.  `numpy`/`scipy` machine
floats are modelled by `ℝ`/`ℂ`; array operations by `List`s; the fallible
spots of `compute_freqdomain` (the `ind_tmp[-1]` indexing, which raises
`IndexError` on an empty list, and `np.polyfit` on an empty fit range,
which raises `TypeError`) by `Except`.  Division by zero follows Lean's
junk-value convention `x / 0 = 0`; the places where the Python code can
actually divide by zero are discussed at the corresponding theorems.
-/

/-- The calculator class: two RMP signals, two chordwise sensor positions
(m), and the sampling frequency (Hz), exactly the fields stored by
`__init__`. -/
structure RMP_ConvectionVelocityCalculator where
  RMP_data_1 : List ℝ
  RMP_data_2 : List ℝ
  RMP_x1 : ℝ
  RMP_x2 : ℝ
  fs : ℝ

/-! ## Time-domain estimator (`compute_timedomain`) -/

/-- Python's `x - np.mean(x)`: subtract the arithmetic mean from every sample. -/
noncomputable def demean (l : List ℝ) : List ℝ :=
  l.map (fun v => v - l.sum / l.length)

/-- Full discrete convolution, `c k = ∑ i, a i * b (k - i)`, the
mathematical content of `scipy.signal`'s full-mode convolution.  Indices
outside a list read as `0` via `getD`. -/
noncomputable def convFull (a b : List ℝ) : List ℝ :=
  (List.range (a.length + b.length - 1)).map (fun k =>
    ∑ i in Finset.range (k + 1), a.getD i 0 * b.getD (k - i) 0)

/-- Embedding of `scipy.signal.correlate(a, b)` (mode `'full'`): for real
inputs this is the convolution of `a` with the reversal of `b`. -/
noncomputable def correlate (a b : List ℝ) : List ℝ :=
  convFull a b.reverse

/-- Embedding of `scipy.signal.correlation_lags(len1, len2)` (mode
`'full'`): this is `np.arange(-(len2-1), len1)`. -/
def correlation_lags (len1 len2 : ℕ) : List ℤ :=
  (List.range (len1 + len2 - 1)).map (fun k : ℕ => (k : ℤ) - ((len2 : ℤ) - 1))

/-- Strict lexicographic order on `(value, index)` pairs: this is how
Python compares the tuples produced by
`max((val, idx) for (idx, val) in enumerate(...))`. -/
def lexLt (a b : ℝ × ℕ) : Prop :=
  a.1 < b.1 ∨ (a.1 = b.1 ∧ a.2 < b.2)

noncomputable instance instDecidableLexLt (a b : ℝ × ℕ) :
    Decidable (lexLt a b) := by
  unfold lexLt; infer_instance

/-- Folding Python's `max` over a list of `(value, index)` pairs:
the running maximum is replaced exactly when the new tuple is strictly
greater in lexicographic order. -/
noncomputable def pickMax (l : List (ℝ × ℕ)) (init : ℝ × ℕ) : ℝ × ℕ :=
  l.foldl (fun b p => if lexLt b p then p else b) init

/-- The `(val, idx)` pairs generated by
`((val, idx) for (idx, val) in enumerate(l))`. -/
noncomputable def enumVals (l : List ℝ) : List (ℝ × ℕ) :=
  (List.range l.length).map (fun i => (l.getD i 0, i))

/-- The line `_, ind_Rxy_max = max((val, idx) for (idx, val) in
enumerate(abs(Rxy)))`: the chosen index.  Python's `max` seeds with the first tuple and keeps the
lexicographically largest; seeding the fold with the head is equivalent. -/
noncomputable def ind_Rxy_max (l : List ℝ) : ℕ :=
  (pickMax (enumVals l) (l.headD 0, 0)).2

/-- The line `Rxy = signal.correlate(data1 - mean, data2 - mean)`. -/
noncomputable def Rxy (c : RMP_ConvectionVelocityCalculator) : List ℝ :=
  correlate (demean c.RMP_data_1) (demean c.RMP_data_2)

/-- The line `lags = signal.correlation_lags(len(data1), len(data2))`. -/
def lags (c : RMP_ConvectionVelocityCalculator) : List ℤ :=
  correlation_lags c.RMP_data_1.length c.RMP_data_2.length

/-- The line `lagDiff = lags[ind_Rxy_max]` where `ind_Rxy_max` is the index chosen
from `abs(Rxy)`. -/
noncomputable def lagDiff (c : RMP_ConvectionVelocityCalculator) : ℤ :=
  (lags c).getD (ind_Rxy_max ((Rxy c).map (fun v => |v|))) 0

/-- The line `timeDiff = lagDiff / fs`. -/
noncomputable def timeDiff (c : RMP_ConvectionVelocityCalculator) : ℝ :=
  (lagDiff c : ℝ) / c.fs

/-- Embedding of `compute_timedomain`: returns `Ucv = (x2 - x1) / timeDiff` together
with the plotting payload `{'Rxy': Rxy, 'lags': lags}`. -/
noncomputable def compute_timedomain (c : RMP_ConvectionVelocityCalculator) :
    ℝ × List ℝ × List ℤ :=
  ((c.RMP_x2 - c.RMP_x1) / timeDiff c, Rxy c, lags c)

/-! ## Spec-side notions for the time-domain claims -/

/-- Integer-indexed read of a list, zero outside `[0, length)`. -/
def getI (l : List ℝ) (z : ℤ) : ℝ :=
  if 0 ≤ z then l.getD z.toNat 0 else 0

/-- Spec-side cross-correlation of two (already de-meaned) signals at an
integer lag `L`: `∑ n, a (n + L) * b n`, the textbook full non-circular
cross-correlation, matching `scipy.signal.correlate`'s convention. -/
noncomputable def xcorrSpec (a b : List ℝ) (L : ℤ) : ℝ :=
  ∑ n in Finset.range b.length, getI a ((n : ℤ) + L) * b.getD n 0

/-- Spec-side statement "the selected index is the index of maximum
absolute value, ties resolved by earliest index". -/
def isEarliestAbsArgmax (l : List ℝ) (i : ℕ) : Prop :=
  i < l.length ∧ (∀ j, j < l.length → |l.getD j 0| ≤ |l.getD i 0|) ∧
    (∀ j, j < i → |l.getD j 0| < |l.getD i 0|)

/-- The selection the code actually makes: index of maximum absolute
value, ties resolved by the LAST (largest) index. -/
def isLatestAbsArgmax (l : List ℝ) (i : ℕ) : Prop :=
  i < l.length ∧ (∀ j, j < l.length → |l.getD j 0| ≤ |l.getD i 0|) ∧
    (∀ j, j < l.length → |l.getD i 0| ≤ |l.getD j 0| → j ≤ i)

/-- Exchanging sensor 1 and sensor 2 (signals and positions alike). -/
def swapCalc (c : RMP_ConvectionVelocityCalculator) :
    RMP_ConvectionVelocityCalculator :=
  ⟨c.RMP_data_2, c.RMP_data_1, c.RMP_x2, c.RMP_x1, c.fs⟩

/-! ## Frequency-domain estimator (`compute_freqdomain`)

`scipy.signal.csd`/`welch` are called with `window='hann'`,
`nfft=nperseg=N_window`, `noverlap=N_overlap` and the defaults
`detrend='constant'`, `scaling='density'`, `return_onesided=True`,
`average='mean'`.  Concretely, for real input of length `len`:
segments are `x[k*step : k*step + nperseg]` with `step = nperseg -
noverlap` (trailing samples that do not fill a segment are dropped), each
segment has its mean removed, is multiplied by the periodic Hann window,
and transformed by `rfft`; cross-periodograms `conj(X) * Y` are scaled by
`1 / (fs * sum(win**2))`, doubled at every bin except bin 0 (and the
Nyquist bin when `nperseg` is even), and averaged over segments.  That
pipeline is embedded literally below. -/

/-- Periodic Hann window (`scipy.signal.get_window('hann', N)` with
`fftbins=True`): `w n = 0.5 - 0.5 cos (2 π n / N)`. -/
noncomputable def hann (N n : ℕ) : ℝ :=
  1 / 2 - 1 / 2 * Real.cos (2 * Real.pi * n / N)

/-- Embedding of scipy's `_triage_segments`: an `nperseg` larger than the
signal is shrunk to the signal length (scipy emits a `UserWarning` and
rebuilds the Hann window at the shrunken length); otherwise `nperseg` is
kept.  The transform length `nfft = N_window` stays as requested, so a
shrunken segment is zero-padded up to `nfft` by the transform. -/
def effPerseg (nw len : ℕ) : ℕ := min nw len

/-- Number of Welch segments: `(len - noverlap) / (nperseg_eff - noverlap)`
(ℕ division), i.e. `(len - nperseg_eff) // step + 1` for
`len ≥ nperseg_eff`, where `nperseg_eff` is the (possibly shrunken)
segment length.  (scipy raises `ValueError` when
`noverlap ≥ nperseg_eff`; no theorem below touches that regime.) -/
def nsegs (len nw no : ℕ) : ℕ :=
  (len - no) / (effPerseg nw len - no)

/-- The `k`-th Welch segment of `x`, of the effective segment length. -/
def welchSegment (x : List ℝ) (nw no k : ℕ) : List ℝ :=
  (x.drop (k * (effPerseg nw x.length - no))).take (effPerseg nw x.length)

/-- The per-segment `detrend='constant'` of `scipy`: remove the segment mean. -/
noncomputable def detrendConst (s : List ℝ) : List ℝ :=
  s.map (fun v => v - s.sum / s.length)

/-- De-meaned segment multiplied by the Hann window of the effective
segment length. -/
noncomputable def windowedSeg (x : List ℝ) (nw no k : ℕ) : List ℝ :=
  (List.range (effPerseg nw x.length)).map
    (fun n => hann (effPerseg nw x.length) n *
      (detrendConst (welchSegment x nw no k)).getD n 0)

/-- The `rfft` bin `j` of the windowed, de-meaned segment `k`:
`∑ n, v n * exp (-2 π i j n / nfft)` with `nfft = N_window`.  When
`nperseg` was shrunk the windowed segment is shorter than `nfft` and the
`getD` default `0` supplies exactly scipy's zero-padding. -/
noncomputable def segDFT (x : List ℝ) (nw no k j : ℕ) : ℂ :=
  ∑ n in Finset.range nw,
    (((windowedSeg x nw no k).getD n 0 : ℝ) : ℂ) *
      Complex.exp ((-(2 * Real.pi * j * n / nw) : ℝ) * Complex.I)

/-- Number of one-sided frequency bins: `nfft / 2 + 1`. -/
def nbins (nw : ℕ) : ℕ := nw / 2 + 1

/-- Density scaling of the one-sided spectrum at bin `j`: the factor
`1 / (fs * sum(win ** 2))` with `win` the Hann window of the effective
segment length, doubled except at bin 0 and at the Nyquist bin for even
`nfft`. -/
noncomputable def winScale (fs : ℝ) (nw len j : ℕ) : ℝ :=
  (if j = 0 ∨ (nw % 2 = 0 ∧ j = nw / 2) then 1 else 2) /
    (fs * ∑ n in Finset.range (effPerseg nw len), hann (effPerseg nw len) n ^ 2)

/-- Embedding of `scipy.signal.csd` at frequency bin `j`: the scaled average over
segments of `conj(X_k) * Y_k`. -/
noncomputable def csd (x y : List ℝ) (fs : ℝ) (nw no j : ℕ) : ℂ :=
  ((winScale fs nw x.length j : ℝ) : ℂ) *
    ((∑ k in Finset.range (nsegs x.length nw no),
        (starRingEnd ℂ) (segDFT x nw no k j) * segDFT y nw no k j) /
      ((nsegs x.length nw no : ℕ) : ℂ))

/-- Embedding of `scipy.signal.welch` at frequency bin `j`: `csd(x, x)` is real, equal
to the scaled average of `|X_k|²`. -/
noncomputable def welch (x : List ℝ) (fs : ℝ) (nw no j : ℕ) : ℝ :=
  winScale fs nw x.length j *
    ((∑ k in Finset.range (nsegs x.length nw no),
        Complex.normSq (segDFT x nw no k j)) / (nsegs x.length nw no : ℕ))

/-- The line `gamma2 = abs(Pxy)**2 / (Pxx * Pyy)` at bin `j`. -/
noncomputable def gamma2 (c : RMP_ConvectionVelocityCalculator)
    (nw no j : ℕ) : ℝ :=
  Complex.abs (csd c.RMP_data_1 c.RMP_data_2 c.fs nw no j) ^ 2 /
    (welch c.RMP_data_1 c.fs nw no j * welch c.RMP_data_2 c.fs nw no j)

open Classical in
/-- The line `ind_tmp = [ind for ind, val in enumerate(gamma2) if val >= 0.1]`. -/
noncomputable def ind_tmp (c : RMP_ConvectionVelocityCalculator)
    (nw no : ℕ) : List ℕ :=
  (List.range (nbins nw)).filter (fun j => 0.1 ≤ gamma2 c nw no j)

/-- The line `ind_fmax_fit = ind_tmp[-1]`; `none` models the `IndexError` Python
raises when `ind_tmp` is empty. -/
noncomputable def ind_fmax_fit (c : RMP_ConvectionVelocityCalculator)
    (nw no : ℕ) : Option ℕ :=
  (ind_tmp c nw no).getLast?

/-- The one-sided frequency axis returned by `csd`: `f j = j * fs / nw`. -/
noncomputable def f_Pxy (fs : ℝ) (nw : ℕ) : List ℝ :=
  (List.range (nbins nw)).map (fun j : ℕ => (j : ℝ) * fs / nw)

/-- The cross-spectral density array `Pxy` as a list over all bins. -/
noncomputable def PxyList (c : RMP_ConvectionVelocityCalculator)
    (nw no : ℕ) : List ℂ :=
  (List.range (nbins nw)).map
    (fun j => csd c.RMP_data_1 c.RMP_data_2 c.fs nw no j)

/-- The line `phi_xy = np.angle(Pxy[1:cut])`. -/
noncomputable def phi_xy (c : RMP_ConvectionVelocityCalculator)
    (nw no cut : ℕ) : List ℝ :=
  (((PxyList c nw no).drop 1).take (cut - 1)).map Complex.arg

/-- One step of the difference wrapping of `np.unwrap`: map a phase difference
into `[-π, π)` by subtracting the right multiple of `2π`, except that a
wrapped value of exactly `-π` coming from a positive difference becomes
`+π`. -/
noncomputable def wrapToPi (d : ℝ) : ℝ :=
  if d - 2 * Real.pi * ⌊(d + Real.pi) / (2 * Real.pi)⌋ = -Real.pi ∧ 0 < d
  then Real.pi
  else d - 2 * Real.pi * ⌊(d + Real.pi) / (2 * Real.pi)⌋

/-- Per-difference correction of `np.unwrap`: differences smaller than the
discontinuity threshold `π` are left untouched. -/
noncomputable def phCorrect (d : ℝ) : ℝ :=
  if |d| < Real.pi then 0 else wrapToPi d - d

/-- Tail recursion for `np.unwrap`: here `prev` is the previous ORIGINAL
sample, `acc` the accumulated correction. -/
noncomputable def unwrapAux (prev acc : ℝ) : List ℝ → List ℝ
  | [] => []
  | b :: rest =>
      (b + (acc + phCorrect (b - prev))) ::
        unwrapAux b (acc + phCorrect (b - prev)) rest

/-- Embedding of `np.unwrap` with the default `discont = π`, `period = 2π`. -/
noncomputable def unwrap : List ℝ → List ℝ
  | [] => []
  | a :: rest => a :: unwrapAux a 0 rest

/-- Embedding of `np.polyfit(x, y, 1)`.  `np.polyfit` divides each column of
the degree-1 Vandermonde matrix by its Euclidean norm, solves through
`lstsq`, and scales the coefficients back:
* empty `x` raises `TypeError` (modelled by `none`);
* a single point `(x0, y0)` gives a rank-deficient scaled system
  `[sign x0, 1] · c = y0` whose minimum-norm solution, scaled back, is
  `slope = y0 / (2 * x0)`, `intercept = y0 / 2` (numpy only emits a
  `RankWarning`; at `x0 = 0` the zero column norm makes numpy produce
  non-finite coefficients — never reached from the calculator, whose fit
  abscissae are nonzero frequencies — and Lean's division convention
  reads the slope as `0` there);
* with at least two points and not-all-equal abscissae (the only way the
  calculator calls it: frequency bins are strictly increasing) the system
  has full column rank, the scaling cancels, and `lstsq` returns the
  unique ordinary least-squares solution, written here in
  normal-equation (Cramer) form.
The returned pair is `(P[0], P[1]) = (slope, intercept)`. -/
noncomputable def polyfit1 (xs ys : List ℝ) : Option (ℝ × ℝ) :=
  match xs, ys with
  | [], _ => none
  | [x0], y =>
      some (y.headD 0 / (2 * x0), y.headD 0 / 2)
  | _, _ =>
      some
        (((xs.length : ℝ) * ((xs.zip ys).map (fun p => p.1 * p.2)).sum -
            xs.sum * ys.sum) /
          ((xs.length : ℝ) * (xs.map (fun v => v ^ 2)).sum - xs.sum ^ 2),
         ((xs.map (fun v => v ^ 2)).sum * ys.sum -
            xs.sum * ((xs.zip ys).map (fun p => p.1 * p.2)).sum) /
          ((xs.length : ℝ) * (xs.map (fun v => v ^ 2)).sum - xs.sum ^ 2))

/-- Failure modes of `compute_freqdomain`: `ind_tmp[-1]` on an empty list
(`IndexError`), and `np.polyfit` on an empty fit range (`TypeError`). -/
inductive FreqErr where
  | indexError : FreqErr
  | polyfitError : FreqErr
deriving DecidableEq

/-- Successful result of `compute_freqdomain`: the velocity `Ucv` plus
the `result_plot` dictionary
`{'gamma2', 'ind_fmax_fit', 'f_Pxy', 'P', 'Pxy'}`. -/
structure FreqResult where
  Ucv : ℝ
  gamma2 : List ℝ
  ind_fmax_fit : ℕ
  P : ℝ × ℝ
  f_Pxy : List ℝ
  Pxy : List ℂ

/-- Embedding of `compute_freqdomain(N_window, N_overlap)`:
CSD and Welch auto-spectra, coherence, cutoff, linear fit of the
unwrapped CSD phase over bins `[1, cutoff)`, and
`Ucv = (x2 - x1) / P[0] * 2 * π`. -/
noncomputable def compute_freqdomain (c : RMP_ConvectionVelocityCalculator)
    (nw no : ℕ) : Except FreqErr FreqResult :=
  match ind_fmax_fit c nw no with
  | none => .error .indexError
  | some cut =>
      match polyfit1 (((f_Pxy c.fs nw).drop 1).take (cut - 1))
          (unwrap (phi_xy c nw no cut)) with
      | none => .error .polyfitError
      | some P =>
          .ok ⟨(c.RMP_x2 - c.RMP_x1) / P.1 * 2 * Real.pi,
            (List.range (nbins nw)).map (gamma2 c nw no), cut, P,
            f_Pxy c.fs nw, PxyList c nw no⟩

/-- Spec-side ordinary least-squares slope of `ys` against `xs`, in the
textbook centered form `∑ (x - x̄)(y - ȳ) / ∑ (x - x̄)²`. -/
noncomputable def olsSlope (xs ys : List ℝ) : ℝ :=
  (((xs.zip ys).map
      (fun p => (p.1 - xs.sum / xs.length) * (p.2 - ys.sum / ys.length))).sum) /
    ((xs.map (fun v => (v - xs.sum / xs.length) ^ 2)).sum)

/-! ## Lemmas: the tuple-max selection -/

lemma lexLt_trans {a b c : ℝ × ℕ} (h1 : lexLt a b) (h2 : lexLt b c) :
    lexLt a c := by
  rcases h1 with h1 | ⟨h1e, h1i⟩ <;> rcases h2 with h2 | ⟨h2e, h2i⟩
  · exact Or.inl (h1.trans h2)
  · exact Or.inl (h2e ▸ h1)
  · exact Or.inl (h1e ▸ h2)
  · exact Or.inr ⟨h1e.trans h2e, h1i.trans h2i⟩

lemma lexLt_total (a b : ℝ × ℕ) : lexLt a b ∨ a = b ∨ lexLt b a := by
  rcases lt_trichotomy a.1 b.1 with h | h | h
  · exact Or.inl (Or.inl h)
  · rcases lt_trichotomy a.2 b.2 with h2 | h2 | h2
    · exact Or.inl (Or.inr ⟨h, h2⟩)
    · exact Or.inr (Or.inl (Prod.ext h h2))
    · exact Or.inr (Or.inr (Or.inr ⟨h.symm, h2⟩))
  · exact Or.inr (Or.inr (Or.inl h))

lemma lexLt_irrefl (a : ℝ × ℕ) : ¬ lexLt a a := by
  rintro (h | ⟨-, h⟩) <;> exact lt_irrefl _ h

lemma pickMax_cons (init p : ℝ × ℕ) (rest : List (ℝ × ℕ)) :
    pickMax (p :: rest) init
      = pickMax rest (if lexLt init p then p else init) := rfl

lemma pickMax_mem : ∀ (l : List (ℝ × ℕ)) (init : ℝ × ℕ),
    pickMax l init = init ∨ pickMax l init ∈ l := by
  intro l
  induction l with
  | nil => intro init; exact Or.inl rfl
  | cons p rest ih =>
      intro init
      rw [pickMax_cons]
      by_cases hc : lexLt init p
      · rw [if_pos hc]
        rcases ih p with h | h
        · rw [h]; exact Or.inr (List.mem_cons_self p rest)
        · exact Or.inr (List.mem_cons_of_mem p h)
      · rw [if_neg hc]
        rcases ih init with h | h
        · exact Or.inl h
        · exact Or.inr (List.mem_cons_of_mem p h)

lemma pickMax_ub : ∀ (l : List (ℝ × ℕ)) (init q : ℝ × ℕ),
    (q = init ∨ q ∈ l) → ¬ lexLt (pickMax l init) q := by
  intro l
  induction l with
  | nil =>
      intro init q hq
      rcases hq with rfl | hq
      · exact lexLt_irrefl q
      · cases hq
  | cons p rest ih =>
      intro init q hq
      rw [pickMax_cons]
      by_cases hc : lexLt init p
      · rw [if_pos hc]
        rcases hq with rfl | hq
        · intro habs
          exact ih p p (Or.inl rfl) (lexLt_trans habs hc)
        · rcases List.mem_cons.mp hq with rfl | hq
          · exact ih q q (Or.inl rfl)
          · exact ih p q (Or.inr hq)
      · rw [if_neg hc]
        rcases hq with rfl | hq
        · exact ih q q (Or.inl rfl)
        · rcases List.mem_cons.mp hq with rfl | hq
          · rcases lexLt_total init q with h | h | h
            · exact absurd h hc
            · rw [← h]; exact ih init init (Or.inl rfl)
            · intro habs
              exact ih init init (Or.inl rfl) (lexLt_trans habs h)
          · exact ih init q (Or.inr hq)

lemma enumVals_mem {l : List ℝ} {q : ℝ × ℕ} (h : q ∈ enumVals l) :
    q.2 < l.length ∧ q.1 = l.getD q.2 0 := by
  rcases List.mem_map.mp h with ⟨i, hi, rfl⟩
  exact ⟨List.mem_range.mp hi, rfl⟩

lemma enumVals_mem_of_lt {l : List ℝ} {j : ℕ} (h : j < l.length) :
    (l.getD j 0, j) ∈ enumVals l :=
  List.mem_map.mpr ⟨j, List.mem_range.mpr h, rfl⟩

lemma headD_mem_enumVals {l : List ℝ} (h : l ≠ []) :
    ((l.headD 0 : ℝ), (0 : ℕ)) ∈ enumVals l := by
  rcases l with _ | ⟨a, rest⟩
  · exact absurd rfl h
  · have h0 : (0 : ℕ) < (a :: rest).length := by simp
    have h1 := @enumVals_mem_of_lt (a :: rest) 0 h0
    simpa using h1

/-- Characterization of the code's selection: `ind_Rxy_max l` is an index
of maximal value, and among tied maximal values it is the largest index. -/
lemma ind_Rxy_max_spec (l : List ℝ) (h : l ≠ []) :
    ind_Rxy_max l < l.length ∧
      (∀ j, j < l.length → l.getD j 0 ≤ l.getD (ind_Rxy_max l) 0) ∧
      (∀ j, j < l.length →
        l.getD (ind_Rxy_max l) 0 ≤ l.getD j 0 → j ≤ ind_Rxy_max l) := by
  set r := pickMax (enumVals l) (l.headD 0, 0) with hr
  have hmem' : r ∈ enumVals l := by
    rcases pickMax_mem (enumVals l) (l.headD 0, 0) with hm | hm
    · rw [hr, hm]; exact headD_mem_enumVals h
    · exact hm
  obtain ⟨hlen, hval⟩ := enumVals_mem hmem'
  have hub : ∀ j, j < l.length → ¬ lexLt r (l.getD j 0, j) := by
    intro j hj
    exact pickMax_ub _ _ _ (Or.inr (enumVals_mem_of_lt hj))
  have hind : ind_Rxy_max l = r.2 := rfl
  refine ⟨hind ▸ hlen, ?_, ?_⟩
  · intro j hj
    have hj2 := hub j hj
    rw [lexLt] at hj2
    push_neg at hj2
    rw [hind, ← hval]
    exact hj2.1
  · intro j hj hle
    have hj2 := hub j hj
    rw [lexLt] at hj2
    push_neg at hj2
    rw [hind] at hle ⊢
    rw [← hval] at hle
    exact hj2.2 (le_antisymm hj2.1 hle).symm

/-! ## Lemmas: integer-indexed sums and the cross-correlation -/

lemma getI_natCast (l : List ℝ) (n : ℕ) : getI l (n : ℤ) = l.getD n 0 := by
  simp [getI]

lemma getI_neg {l : List ℝ} {z : ℤ} (h : z < 0) : getI l z = 0 := by
  simp [getI, not_le.mpr h]

lemma getI_of_length_le {l : List ℝ} {z : ℤ} (h : (l.length : ℤ) ≤ z) :
    getI l z = 0 := by
  unfold getI
  have h0 : (0 : ℤ) ≤ z := le_trans (Int.ofNat_nonneg _) h
  rw [if_pos h0]
  apply List.getD_eq_default
  omega

lemma getD_map_range {α : Type} {M : ℕ} (f : ℕ → α) (d : α) {k : ℕ}
    (hk : k < M) : ((List.range M).map f).getD k d = f k := by
  have hlen : k < ((List.range M).map f).length := by simp [hk]
  rw [List.getD_eq_getElem _ _ hlen]
  simp

lemma sum_range_eq_sum_Icc (F : ℤ → ℝ) (k : ℕ) :
    ∑ i in Finset.range (k + 1), F (i : ℤ)
      = ∑ m in Finset.Icc (0 : ℤ) (k : ℤ), F m := by
  refine Finset.sum_nbij' (fun i => (i : ℤ)) (fun m => m.toNat) ?_ ?_ ?_ ?_ ?_
  · intro a ha
    simp only [Finset.mem_range] at ha
    simp only [Finset.mem_Icc]
    omega
  · intro a ha
    simp only [Finset.mem_Icc] at ha
    simp only [Finset.mem_range]
    omega
  · intro a ha
    simp
  · intro a ha
    simp only [Finset.mem_Icc] at ha
    exact Int.toNat_of_nonneg ha.1
  · intro a ha
    rfl

lemma sum_range_shift (F : ℤ → ℝ) (L : ℤ) (N : ℕ) :
    ∑ n in Finset.range N, F ((n : ℤ) + L)
      = ∑ m in Finset.Icc L (L + (N : ℤ) - 1), F m := by
  refine Finset.sum_nbij' (fun n => (n : ℤ) + L) (fun m => (m - L).toNat)
    ?_ ?_ ?_ ?_ ?_
  · intro a ha
    simp only [Finset.mem_range] at ha
    simp only [Finset.mem_Icc]
    omega
  · intro a ha
    simp only [Finset.mem_Icc] at ha
    simp only [Finset.mem_range]
    omega
  · intro a ha
    show ((a : ℤ) + L - L).toNat = a
    omega
  · intro a ha
    simp only [Finset.mem_Icc] at ha
    show (((a - L).toNat : ℤ)) + L = a
    omega
  · intro a ha
    rfl

lemma sum_Icc_eq_of_support (F : ℤ → ℝ) (lo1 hi1 lo2 hi2 : ℤ)
    (hlo1 : ∀ m, m < lo1 → F m = 0) (hhi1 : ∀ m, hi1 < m → F m = 0)
    (hlo2 : ∀ m, m < lo2 → F m = 0) (hhi2 : ∀ m, hi2 < m → F m = 0) :
    ∑ m in Finset.Icc lo1 hi1, F m = ∑ m in Finset.Icc lo2 hi2, F m := by
  have key : ∀ lo hi lo' hi' : ℤ, lo' ≤ lo → hi ≤ hi' →
      (∀ m, m < lo → F m = 0) → (∀ m, hi < m → F m = 0) →
      ∑ m in Finset.Icc lo hi, F m = ∑ m in Finset.Icc lo' hi', F m := by
    intro lo hi lo' hi' h1 h2 hzl hzh
    apply Finset.sum_subset
    · exact Finset.Icc_subset_Icc h1 h2
    · intro m hm hnm
      simp only [Finset.mem_Icc] at hm hnm
      rcases lt_or_le m lo with hc | hc
      · exact hzl m hc
      · refine hzh m ?_
        by_contra hc2
        push_neg at hc2
        exact hnm ⟨hc, hc2⟩
  rw [key lo1 hi1 (min lo1 lo2) (max hi1 hi2) (min_le_left _ _)
      (le_max_left _ _) hlo1 hhi1,
    key lo2 hi2 (min lo1 lo2) (max hi1 hi2) (min_le_right _ _)
      (le_max_right _ _) hlo2 hhi2]

lemma correlate_length (a b : List ℝ) :
    (correlate a b).length = a.length + b.length - 1 := by
  simp [correlate, convFull]

lemma correlation_lags_length (len1 len2 : ℕ) :
    (correlation_lags len1 len2).length = len1 + len2 - 1 := by
  rw [correlation_lags, List.length_map, List.length_range]

lemma correlation_lags_getD {len1 len2 k : ℕ} (hk : k < len1 + len2 - 1) :
    (correlation_lags len1 len2).getD k 0 = (k : ℤ) - ((len2 : ℤ) - 1) := by
  rw [correlation_lags]
  exact getD_map_range _ _ hk

lemma getD_reverse_eq_getI (b : List ℝ) (m : ℕ) :
    b.reverse.getD m 0 = getI b ((b.length : ℤ) - 1 - m) := by
  rcases lt_or_le m b.length with h | h
  · have hm : m < b.reverse.length := by simpa using h
    rw [List.getD_eq_getElem _ _ hm, List.getElem_reverse]
    have hcast : ((b.length : ℤ) - 1 - m) = ((b.length - 1 - m : ℕ) : ℤ) := by
      omega
    rw [hcast, getI_natCast]
    rw [List.getD_eq_getElem _ _ (by omega)]
  · have h1 : b.reverse.getD m 0 = 0 :=
      List.getD_eq_default _ _ (by simpa using h)
    have h2 : getI b ((b.length : ℤ) - 1 - m) = 0 := by
      rcases Nat.eq_zero_or_pos b.length with hz | hp
      · rw [getI_neg]; omega
      · rw [getI_neg]; omega
    rw [h1, h2]

/-- Element `k` of `scipy.signal.correlate(a, b)` is the textbook
cross-correlation at lag `k - (N - 1)`. -/
lemma correlate_getD_eq_xcorr (a b : List ℝ) (N : ℕ) (ha : a.length = N)
    (hb : b.length = N) (hN : 1 ≤ N) (k : ℕ) (hk : k < 2 * N - 1) :
    (correlate a b).getD k 0 = xcorrSpec a b ((k : ℤ) - ((N : ℤ) - 1)) := by
  set L : ℤ := (k : ℤ) - ((N : ℤ) - 1) with hL
  set F : ℤ → ℝ := fun m => getI a m * getI b (m - L) with hF
  have hFlo0 : ∀ m : ℤ, m < 0 → F m = 0 := by
    intro m hm; rw [hF]; simp only []; rw [getI_neg hm, zero_mul]
  have hFhi : ∀ m : ℤ, (k : ℤ) < m → F m = 0 := by
    intro m hm
    rw [hF]; simp only []
    have : (b.length : ℤ) ≤ m - L := by rw [hb]; omega
    rw [getI_of_length_le this, mul_zero]
  have hFloL : ∀ m : ℤ, m < L → F m = 0 := by
    intro m hm
    rw [hF]; simp only []
    rw [getI_neg (by omega : m - L < 0), mul_zero]
  -- left side
  have hlhs : (correlate a b).getD k 0
      = ∑ i in Finset.range (k + 1), F (i : ℤ) := by
    rw [correlate, convFull]
    have hk' : k < a.length + b.reverse.length - 1 := by
      rw [ha, List.length_reverse, hb]; omega
    rw [getD_map_range _ _ hk']
    apply Finset.sum_congr rfl
    intro i hi
    rw [Finset.mem_range] at hi
    rw [hF]; simp only []
    rw [getI_natCast, getD_reverse_eq_getI, hb]
    congr 2
    omega
  have hrhs : xcorrSpec a b L = ∑ n in Finset.range N, F ((n : ℤ) + L) := by
    rw [xcorrSpec, hb]
    apply Finset.sum_congr rfl
    intro n hn
    rw [hF]; simp only []
    rw [add_sub_cancel_right, getI_natCast]
  rw [hlhs, hrhs, sum_range_eq_sum_Icc, sum_range_shift]
  have hends : L + (N : ℤ) - 1 = (k : ℤ) := by omega
  rw [hends]
  exact sum_Icc_eq_of_support F 0 k L k hFlo0 hFhi hFloL hFhi

/-- Cross-correlation is symmetric up to lag negation. -/
lemma xcorrSpec_comm (a b : List ℝ) (N : ℕ) (ha : a.length = N)
    (hb : b.length = N) (L : ℤ) :
    xcorrSpec b a (-L) = xcorrSpec a b L := by
  set F : ℤ → ℝ := fun m => getI a m * getI b (m - L) with hF
  have h1 : xcorrSpec b a (-L) = ∑ n in Finset.range N, F (n : ℤ) := by
    rw [xcorrSpec, ha]
    apply Finset.sum_congr rfl
    intro n hn
    rw [hF]; simp only []
    rw [getI_natCast a n, sub_eq_add_neg]
    ring
  have h2 : xcorrSpec a b L = ∑ n in Finset.range N, F ((n : ℤ) + L) := by
    rw [xcorrSpec, hb]
    apply Finset.sum_congr rfl
    intro n hn
    rw [hF]; simp only []
    rw [add_sub_cancel_right, getI_natCast]
  rcases Nat.eq_zero_or_pos N with hz | hp
  · subst hz; rw [h1, h2]; simp
  have hN1 : N = (N - 1) + 1 := by omega
  rw [h1, h2, hN1, sum_range_eq_sum_Icc, ← hN1, sum_range_shift]
  apply sum_Icc_eq_of_support
  · intro m hm; rw [hF]; simp only []; rw [getI_neg hm, zero_mul]
  · intro m hm
    rw [hF]; simp only []
    rw [getI_of_length_le (by rw [ha]; omega), zero_mul]
  · intro m hm
    rw [hF]; simp only []
    rw [getI_neg (by omega : m - L < 0), mul_zero]
  · intro m hm
    rw [hF]; simp only []
    rw [getI_of_length_le (show ((b.length : ℤ)) ≤ m - L by rw [hb]; omega),
      mul_zero]

lemma demean_length (l : List ℝ) : (demean l).length = l.length := by
  simp [demean]

/-- Swapping the two inputs of `scipy.signal.correlate` reverses the
output array. -/
lemma correlate_swap_eq_reverse (a b : List ℝ) (N : ℕ) (ha : a.length = N)
    (hb : b.length = N) (hN : 1 ≤ N) :
    correlate b a = (correlate a b).reverse := by
  have hlen : (correlate b a).length = (correlate a b).reverse.length := by
    rw [List.length_reverse, correlate_length, correlate_length]
    omega
  apply List.ext_getElem hlen
  intro k h1 h2
  have hk : k < 2 * N - 1 := by
    rw [correlate_length, hb, ha] at h1
    omega
  rw [← List.getD_eq_getElem _ 0 h1, ← List.getD_eq_getElem _ 0 h2]
  rw [correlate_getD_eq_xcorr b a N hb ha hN k hk]
  rw [getD_reverse_eq_getI, correlate_length, ha, hb]
  have hcast : ((N + N - 1 : ℕ) : ℤ) - 1 - (k : ℤ)
      = ((2 * N - 2 - k : ℕ) : ℤ) := by omega
  rw [hcast, getI_natCast]
  rw [correlate_getD_eq_xcorr a b N ha hb hN (2 * N - 2 - k) (by omega)]
  have harg : ((2 * N - 2 - k : ℕ) : ℤ) - ((N : ℤ) - 1)
      = (N : ℤ) - 1 - k := by omega
  rw [harg]
  have hcomm := xcorrSpec_comm a b N ha hb ((N : ℤ) - 1 - (k : ℤ))
  have hneg : -((N : ℤ) - 1 - (k : ℤ)) = (k : ℤ) - ((N : ℤ) - 1) := by ring
  rw [hneg] at hcomm
  rw [← hcomm]

/-- Swapping the sensors reverses the cross-correlation array. -/
lemma Rxy_swap (c : RMP_ConvectionVelocityCalculator) (N : ℕ)
    (h1 : c.RMP_data_1.length = N) (h2 : c.RMP_data_2.length = N)
    (hN : 1 ≤ N) : Rxy (swapCalc c) = (Rxy c).reverse := by
  rw [Rxy, Rxy, swapCalc]
  exact correlate_swap_eq_reverse (demean c.RMP_data_1) (demean c.RMP_data_2)
    N (by rw [demean_length]; exact h1) (by rw [demean_length]; exact h2) hN

lemma zip_mul_sum (a : List ℝ) : ∀ b : List ℝ,
    ((a.zip b).map (fun p => p.1 * p.2)).sum
      = ∑ n in Finset.range (min a.length b.length),
          a.getD n 0 * b.getD n 0 := by
  induction a with
  | nil => intro b; simp
  | cons x xs ih =>
      intro b
      cases b with
      | nil => simp
      | cons y ys =>
          simp only [List.zip_cons_cons, List.map_cons, List.sum_cons,
            List.length_cons]
          have hmin : min (xs.length + 1) (ys.length + 1)
              = min xs.length ys.length + 1 := by omega
          rw [hmin, Finset.sum_range_succ']
          simp only [List.getD_cons_succ, List.getD_cons_zero]
          rw [ih ys, add_comm]

lemma xcorrSpec_zero (a b : List ℝ) (h : a.length = b.length) :
    xcorrSpec a b 0 = ((a.zip b).map (fun p => p.1 * p.2)).sum := by
  rw [xcorrSpec, zip_mul_sum, h, min_self]
  apply Finset.sum_congr rfl
  intro n hn
  rw [add_zero, getI_natCast]

/-! ## Lemmas: last index above threshold, and least-squares algebra -/

lemma getLast_filter_range (q : ℕ → Bool) :
    ∀ (n c : ℕ), ((List.range n).filter q).getLast? = some c →
      c < n ∧ q c = true ∧ ∀ j, c < j → j < n → q j = false := by
  intro n
  induction n with
  | zero => intro c h; simp at h
  | succ m ih =>
      intro c h
      rw [List.range_succ, List.filter_append] at h
      by_cases hq : q m = true
      · have hfm : List.filter q [m] = [m] := by simp [hq]
        rw [hfm, List.getLast?_concat] at h
        have hcm : m = c := by injection h
        subst hcm
        exact ⟨Nat.lt_succ_self m, hq, fun j hj1 hj2 => by omega⟩
      · have hqf : q m = false := eq_false_of_ne_true hq
        have hfm : List.filter q [m] = [] := by simp [hqf]
        rw [hfm, List.append_nil] at h
        obtain ⟨h1, h2, h3⟩ := ih c h
        refine ⟨by omega, h2, fun j hj1 hj2 => ?_⟩
        rcases Nat.lt_succ_iff_lt_or_eq.mp hj2 with h4 | h4
        · exact h3 j hj1 h4
        · rw [h4]
          exact eq_false_of_ne_true hq

lemma getLast_filter_range_top (q : ℕ → Bool) (n : ℕ) (h : q n = true) :
    ((List.range (n + 1)).filter q).getLast? = some n := by
  rw [List.range_succ, List.filter_append]
  have hfm : List.filter q [n] = [n] := by simp [h]
  rw [hfm, List.getLast?_concat]

lemma list_sum_sub_mul (xs : List ℝ) (a b : ℝ) : ∀ ys : List ℝ,
    xs.length = ys.length →
    ((xs.zip ys).map (fun p => (p.1 - a) * (p.2 - b))).sum
      = ((xs.zip ys).map (fun p => p.1 * p.2)).sum - a * ys.sum - b * xs.sum
        + (xs.length : ℝ) * (a * b) := by
  induction xs with
  | nil =>
      intro ys h
      have hys : ys = [] := List.eq_nil_of_length_eq_zero h.symm
      subst hys
      simp
  | cons x xs ih =>
      intro ys h
      cases ys with
      | nil => simp at h
      | cons y ys =>
          simp only [List.zip_cons_cons, List.map_cons, List.sum_cons,
            List.length_cons] at h ⊢
          rw [ih ys (by omega)]
          push_cast
          ring

lemma list_sum_sq_sub (xs : List ℝ) (a : ℝ) :
    (xs.map (fun v => (v - a) ^ 2)).sum
      = (xs.map (fun v => v ^ 2)).sum - 2 * a * xs.sum
        + (xs.length : ℝ) * a ^ 2 := by
  induction xs with
  | nil => simp
  | cons x xs ih =>
      simp only [List.map_cons, List.sum_cons, List.length_cons]
      rw [ih]
      push_cast
      ring

lemma sq_list_sum_nonneg (l : List ℝ) (f : ℝ → ℝ) :
    0 ≤ (l.map (fun v => (f v) ^ 2)).sum := by
  apply List.sum_nonneg
  intro x hx
  rcases List.mem_map.mp hx with ⟨v, hv, rfl⟩
  exact sq_nonneg _

lemma centered_var_pos (xs : List ℝ) (h2 : 2 ≤ xs.length)
    (hne : xs.getD 0 0 ≠ xs.getD 1 0) :
    0 < (xs.map (fun v => (v - xs.sum / xs.length) ^ 2)).sum := by
  rcases xs with _ | ⟨u, rest1⟩
  · simp at h2
  rcases rest1 with _ | ⟨v, rest⟩
  · simp at h2
  have huv : u ≠ v := by simpa using hne
  set m := (u :: v :: rest).sum / ((u :: v :: rest).length : ℝ) with hm
  simp only [List.map_cons, List.sum_cons]
  have hrest : 0 ≤ (rest.map (fun v => (v - m) ^ 2)).sum :=
    sq_list_sum_nonneg rest (fun v => v - m)
  have hpos : 0 < (u - m) ^ 2 + (v - m) ^ 2 := by
    rcases eq_or_ne u m with h | h
    · have hv : v - m ≠ 0 := fun hv0 => huv
        (by rw [h]; exact (sub_eq_zero.mp hv0).symm)
      have := lt_of_le_of_ne (sq_nonneg (v - m)) (Ne.symm (pow_ne_zero 2 hv))
      nlinarith [sq_nonneg (u - m)]
    · have hu : u - m ≠ 0 := sub_ne_zero.mpr h
      have := lt_of_le_of_ne (sq_nonneg (u - m)) (Ne.symm (pow_ne_zero 2 hu))
      nlinarith [sq_nonneg (v - m)]
  linarith

/-- For at least two points with positive abscissa variance (the way the
calculator always calls it), the Cramer/normal-equation slope returned by
`polyfit1` is the textbook centered ordinary-least-squares slope. -/
lemma polyfit1_slope_eq_olsSlope (xs ys : List ℝ) (hlen : xs.length = ys.length)
    (h2 : 2 ≤ xs.length)
    (hvar : 0 < (xs.map (fun v => (v - xs.sum / xs.length) ^ 2)).sum) :
    ∃ P : ℝ × ℝ, polyfit1 xs ys = some P ∧ P.1 = olsSlope xs ys := by
  rcases xs with _ | ⟨x0, rest1⟩
  · simp at h2
  rcases rest1 with _ | ⟨x1, rest⟩
  · simp at h2
  set xs := x0 :: x1 :: rest with hxs
  have hform : polyfit1 xs ys
      = some
        (((xs.length : ℝ) * ((xs.zip ys).map (fun p => p.1 * p.2)).sum -
            xs.sum * ys.sum) /
          ((xs.length : ℝ) * (xs.map (fun v => v ^ 2)).sum - xs.sum ^ 2),
         ((xs.map (fun v => v ^ 2)).sum * ys.sum -
            xs.sum * ((xs.zip ys).map (fun p => p.1 * p.2)).sum) /
          ((xs.length : ℝ) * (xs.map (fun v => v ^ 2)).sum - xs.sum ^ 2)) := by
    rw [hxs]
    rfl
  refine ⟨_, hform, ?_⟩
  set n : ℝ := (xs.length : ℝ) with hn
  have hn0 : n ≠ 0 := by
    rw [hn, hxs]
    simp only [List.length_cons]
    push_cast
    positivity
  set sx := xs.sum
  set sy := ys.sum
  set sxx := (xs.map (fun v => v ^ 2)).sum
  set sxy := ((xs.zip ys).map (fun p => p.1 * p.2)).sum
  set A := ((xs.zip ys).map
    (fun p => (p.1 - xs.sum / xs.length) * (p.2 - ys.sum / ys.length))).sum
    with hA
  set B := (xs.map (fun v => (v - xs.sum / xs.length) ^ 2)).sum with hB
  have hAe : n * A = n * sxy - sx * sy := by
    rw [hA, list_sum_sub_mul xs (xs.sum / xs.length) (ys.sum / ys.length) ys
      hlen]
    rw [← hn, ← hlen, ← hn]
    field_simp
    ring
  have hBe : n * B = n * sxx - sx ^ 2 := by
    rw [hB, list_sum_sq_sub xs (xs.sum / xs.length)]
    rw [← hn]
    field_simp
    ring
  show (n * sxy - sx * sy) / (n * sxx - sx ^ 2) = olsSlope xs ys
  rw [olsSlope, ← hA, ← hB, ← hAe, ← hBe]
  exact mul_div_mul_left A B hn0

/-! ## Lemmas: coherence is bounded (Cauchy-Schwarz over segments) -/

lemma cs_bound (K : ℕ) (X Y : ℕ → ℂ) :
    Complex.abs (∑ k in Finset.range K, (starRingEnd ℂ) (X k) * Y k) ^ 2
      ≤ (∑ k in Finset.range K, Complex.normSq (X k)) *
        (∑ k in Finset.range K, Complex.normSq (Y k)) := by
  have h1 : Complex.abs (∑ k in Finset.range K, (starRingEnd ℂ) (X k) * Y k)
      ≤ ∑ k in Finset.range K, Complex.abs (X k) * Complex.abs (Y k) := by
    refine le_trans (Complex.abs.sum_le _ _) ?_
    apply Finset.sum_le_sum
    intro k hk
    rw [map_mul, Complex.abs_conj]
  have h0 : (0 : ℝ) ≤ Complex.abs
      (∑ k in Finset.range K, (starRingEnd ℂ) (X k) * Y k) :=
    Complex.abs.nonneg _
  calc Complex.abs (∑ k in Finset.range K, (starRingEnd ℂ) (X k) * Y k) ^ 2
      ≤ (∑ k in Finset.range K, Complex.abs (X k) * Complex.abs (Y k)) ^ 2 :=
        pow_le_pow_left₀ h0 h1 2
    _ ≤ (∑ k in Finset.range K, Complex.abs (X k) ^ 2) *
        (∑ k in Finset.range K, Complex.abs (Y k) ^ 2) :=
        Finset.sum_mul_sq_le_sq_mul_sq _ _ _
    _ = (∑ k in Finset.range K, Complex.normSq (X k)) *
        (∑ k in Finset.range K, Complex.normSq (Y k)) := by
        simp [Complex.sq_abs]

/-- C9: every magnitude-squared coherence value `gamma2` computed by
`compute_freqdomain` — per bin `|CSD|² / (PSD₁ · PSD₂)` — lies within
`[0, 1]`, for every frequency bin `j` (equal-length input signals, the
way the calculator is used; `scipy` would zero-pad unequal inputs).
Degenerate zero denominators read as `0` under Lean's division
convention (numpy would produce `nan` there, not a value outside the
interval on comparison). -/
theorem C9_coherence_bounds (c : RMP_ConvectionVelocityCalculator)
    (nw no j : ℕ) (h : c.RMP_data_1.length = c.RMP_data_2.length) :
    0 ≤ gamma2 c nw no j ∧ gamma2 c nw no j ≤ 1 := by
  rw [gamma2, csd, welch, welch, ← h]
  set s := winScale c.fs nw c.RMP_data_1.length j with hs
  set K := nsegs c.RMP_data_1.length nw no with hK
  set S := ∑ k in Finset.range K,
    (starRingEnd ℂ) (segDFT c.RMP_data_1 nw no k j) *
      segDFT c.RMP_data_2 nw no k j with hS
  set Sx := ∑ k in Finset.range K,
    Complex.normSq (segDFT c.RMP_data_1 nw no k j) with hSx
  set Sy := ∑ k in Finset.range K,
    Complex.normSq (segDFT c.RMP_data_2 nw no k j) with hSy
  have hSx0 : 0 ≤ Sx := Finset.sum_nonneg (fun k _ => Complex.normSq_nonneg _)
  have hSy0 : 0 ≤ Sy := Finset.sum_nonneg (fun k _ => Complex.normSq_nonneg _)
  have habs : Complex.abs ((s : ℂ) * (S / (K : ℂ))) ^ 2
      = s ^ 2 * Complex.abs S ^ 2 / (K : ℝ) ^ 2 := by
    rw [map_mul, map_div₀, Complex.abs_ofReal, Complex.abs_natCast]
    rw [mul_pow, div_pow, sq_abs]
    ring
  have hden : s * (Sx / (K : ℝ)) * (s * (Sy / (K : ℝ)))
      = s ^ 2 * (Sx * Sy) / (K : ℝ) ^ 2 := by ring
  rw [habs, hden]
  have hcs : Complex.abs S ^ 2 ≤ Sx * Sy := by
    rw [hS, hSx, hSy]
    exact cs_bound K (fun k => segDFT c.RMP_data_1 nw no k j)
      (fun k => segDFT c.RMP_data_2 nw no k j)
  have hden0 : 0 ≤ s ^ 2 * (Sx * Sy) / (K : ℝ) ^ 2 :=
    div_nonneg (mul_nonneg (sq_nonneg s) (mul_nonneg hSx0 hSy0)) (sq_nonneg _)
  have hnum0 : 0 ≤ s ^ 2 * Complex.abs S ^ 2 / (K : ℝ) ^ 2 :=
    div_nonneg (mul_nonneg (sq_nonneg s) (sq_nonneg (Complex.abs S)))
      (sq_nonneg _)
  have hstep : s ^ 2 * Complex.abs S ^ 2 / (K : ℝ) ^ 2
      ≤ s ^ 2 * (Sx * Sy) / (K : ℝ) ^ 2 := by
    rcases Nat.eq_zero_or_pos K with hK0 | hKpos
    · rw [hK0]
      norm_num
    · have hKsq : (0 : ℝ) < (K : ℝ) ^ 2 := by positivity
      have hmul : s ^ 2 * Complex.abs S ^ 2 ≤ s ^ 2 * (Sx * Sy) :=
        mul_le_mul_of_nonneg_left hcs (sq_nonneg s)
      exact (div_le_div_iff_of_pos_right hKsq).mpr hmul
  exact ⟨div_nonneg hnum0 hden0, div_le_one_of_le₀ hstep hden0⟩

/-! ## Time-domain claim theorems -/

lemma getD_map_abs (l : List ℝ) (j : ℕ) (hj : j < l.length) :
    (l.map (fun v => |v|)).getD j 0 = |l.getD j 0| := by
  rw [List.getD_eq_getElem _ _ (by simpa using hj), List.getElem_map,
    List.getD_eq_getElem _ _ hj]

lemma getD_reverse_nat (l : List ℝ) (j : ℕ) (hj : j < l.length) :
    l.reverse.getD j 0 = l.getD (l.length - 1 - j) 0 := by
  rw [getD_reverse_eq_getI]
  have hc : ((l.length : ℤ) - 1 - j) = ((l.length - 1 - j : ℕ) : ℤ) := by
    omega
  rw [hc, getI_natCast]

lemma ind_Rxy_max_unique (l : List ℝ) (u : ℕ) (hu : u < l.length)
    (hmax : ∀ j, j < l.length → j ≠ u → l.getD j 0 < l.getD u 0) :
    ind_Rxy_max l = u := by
  have h0 : l ≠ [] := by
    intro he
    rw [he] at hu
    simp at hu
  obtain ⟨hi, hub, -⟩ := ind_Rxy_max_spec l h0
  by_contra hne
  have hlt := hmax _ hi hne
  have hle := hub u hu
  linarith

/-- C1 (amended): the selected lag index is an index of maximum absolute
cross-correlation value, and when several indices tie, the LAST
(largest) index is chosen — Python's `max` over `(value, index)` tuples
compares the index as tie-breaker and keeps the largest. -/
theorem C1_latest_tiebreak (c : RMP_ConvectionVelocityCalculator)
    (h : Rxy c ≠ []) :
    isLatestAbsArgmax (Rxy c)
      (ind_Rxy_max ((Rxy c).map (fun v => |v|))) := by
  set l := Rxy c with hl
  set la := l.map (fun v => |v|) with hla
  have hlen : la.length = l.length := by rw [hla, List.length_map]
  have hne : la ≠ [] := by
    intro he
    apply h
    rwa [hla, List.map_eq_nil_iff] at he
  obtain ⟨hi, hub, hlast⟩ := ind_Rxy_max_spec la hne
  rw [hlen] at hi
  refine ⟨hi, ?_, ?_⟩
  · intro j hj
    have := hub j (by rwa [hlen])
    rwa [getD_map_abs l j hj, getD_map_abs l _ hi] at this
  · intro j hj hge
    have := hlast j (by rwa [hlen])
    rw [getD_map_abs l j hj, getD_map_abs l _ hi] at this
    exact this hge

/-- C7 (amended): when the maximum of `|Rxy|` is attained at a unique
index, exchanging the two signals and the two positions leaves the
time-domain velocity UNCHANGED (relabelling the sensors does not reverse
the flow): the correlation array reverses, the selected lag negates, and
the negated position difference cancels the negated delay. -/
theorem C7_swap_same_velocity (c : RMP_ConvectionVelocityCalculator)
    (N u : ℕ) (h1 : c.RMP_data_1.length = N) (h2 : c.RMP_data_2.length = N)
    (hN : 1 ≤ N) (hu : u < 2 * N - 1)
    (hmax : ∀ j, j < 2 * N - 1 → j ≠ u →
      |(Rxy c).getD j 0| < |(Rxy c).getD u 0|) :
    (compute_timedomain (swapCalc c)).1 = (compute_timedomain c).1 := by
  have hRlen : (Rxy c).length = 2 * N - 1 := by
    rw [Rxy, correlate_length, demean_length, demean_length, h1, h2]
    omega
  have hRswap : Rxy (swapCalc c) = (Rxy c).reverse := Rxy_swap c N h1 h2 hN
  set l := (Rxy c).map (fun v => |v|) with hldef
  have hllen : l.length = 2 * N - 1 := by rw [hldef, List.length_map, hRlen]
  have labs : ∀ j, j < 2 * N - 1 → l.getD j 0 = |(Rxy c).getD j 0| := by
    intro j hj
    rw [hldef]
    exact getD_map_abs _ j (by rw [hRlen]; omega)
  have hsel : ind_Rxy_max l = u := by
    apply ind_Rxy_max_unique l u (by omega)
    intro j hj hju
    rw [hllen] at hj
    rw [labs j hj, labs u (by omega)]
    exact hmax j hj hju
  have hswapabs : (Rxy (swapCalc c)).map (fun v => |v|) = l.reverse := by
    rw [hRswap, hldef, List.map_reverse]
  have hsel2 : ind_Rxy_max ((Rxy (swapCalc c)).map (fun v => |v|))
      = 2 * N - 2 - u := by
    rw [hswapabs]
    apply ind_Rxy_max_unique l.reverse (2 * N - 2 - u)
      (by rw [List.length_reverse, hllen]; omega)
    intro j hj hju
    rw [List.length_reverse, hllen] at hj
    rw [getD_reverse_nat l j (by omega), getD_reverse_nat l _ (by omega)]
    rw [hllen]
    have hi1 : 2 * N - 1 - 1 - (2 * N - 2 - u) = u := by omega
    have hi2 : 2 * N - 1 - 1 - j = 2 * N - 2 - j := by omega
    rw [hi1, hi2]
    rw [labs _ (by omega), labs u (by omega)]
    exact hmax (2 * N - 2 - j) (by omega) (by omega)
  have hlag : lagDiff c = (u : ℤ) - ((N : ℤ) - 1) := by
    rw [lagDiff, ← hldef, hsel, lags, h1, h2]
    exact correlation_lags_getD (by omega)
  have hlag2 : lagDiff (swapCalc c) = ((N : ℤ) - 1) - u := by
    rw [lagDiff, hsel2, lags]
    have e1 : (swapCalc c).RMP_data_1.length = N := h2
    have e2 : (swapCalc c).RMP_data_2.length = N := h1
    rw [e1, e2]
    rw [correlation_lags_getD (by omega)]
    omega
  have hx12 : (swapCalc c).RMP_x2 - (swapCalc c).RMP_x1
      = -(c.RMP_x2 - c.RMP_x1) := by
    show c.RMP_x1 - c.RMP_x2 = -(c.RMP_x2 - c.RMP_x1)
    ring
  show ((swapCalc c).RMP_x2 - (swapCalc c).RMP_x1) / timeDiff (swapCalc c)
      = (c.RMP_x2 - c.RMP_x1) / timeDiff c
  rw [hx12, timeDiff, timeDiff, hlag, hlag2]
  have hcast : (((((N : ℤ) - 1) - u : ℤ)) : ℝ)
      = -((((u : ℤ) - ((N : ℤ) - 1) : ℤ)) : ℝ) := by
    push_cast
    ring
  have hfs2 : (swapCalc c).fs = c.fs := rfl
  rw [hfs2, hcast, neg_div, neg_div, div_neg, neg_neg]

/-- C8: for equal-length signals of length `N`, the lag axis is the
ordered run of integers `-(N-1), ..., N-1` (length `2N-1`), the
correlation value at each position is the full non-circular
cross-correlation of the two de-meaned signals at the corresponding lag,
and the value at lag `0` is the dot product of the de-meaned signals. -/
theorem C8_correlation_estimate (c : RMP_ConvectionVelocityCalculator)
    (N : ℕ) (h1 : c.RMP_data_1.length = N) (h2 : c.RMP_data_2.length = N)
    (hN : 1 ≤ N) :
    ((lags c).length = 2 * N - 1 ∧
      ∀ k, k < 2 * N - 1 → (lags c).getD k 0 = (k : ℤ) - ((N : ℤ) - 1)) ∧
    (∀ k, k < 2 * N - 1 →
      (Rxy c).getD k 0
        = xcorrSpec (demean c.RMP_data_1) (demean c.RMP_data_2)
            ((k : ℤ) - ((N : ℤ) - 1))) ∧
    (Rxy c).getD (N - 1) 0
      = (((demean c.RMP_data_1).zip (demean c.RMP_data_2)).map
          (fun p => p.1 * p.2)).sum := by
  have hd1 : (demean c.RMP_data_1).length = N := by rw [demean_length, h1]
  have hd2 : (demean c.RMP_data_2).length = N := by rw [demean_length, h2]
  have hvals : ∀ k, k < 2 * N - 1 →
      (Rxy c).getD k 0
        = xcorrSpec (demean c.RMP_data_1) (demean c.RMP_data_2)
            ((k : ℤ) - ((N : ℤ) - 1)) := by
    intro k hk
    rw [Rxy]
    exact correlate_getD_eq_xcorr _ _ N hd1 hd2 hN k hk
  refine ⟨⟨?_, ?_⟩, hvals, ?_⟩
  · rw [lags, correlation_lags_length, h1, h2]
    omega
  · intro k hk
    rw [lags, h1, h2]
    exact correlation_lags_getD (by omega)
  · rw [hvals (N - 1) (by omega)]
    have hzero : ((N - 1 : ℕ) : ℤ) - ((N : ℤ) - 1) = 0 := by omega
    rw [hzero]
    exact xcorrSpec_zero _ _ (by rw [hd1, hd2])

/-- C10: the time delay is always a whole number of sample periods,
`lagDiff / fs` with `|lagDiff| ≤ N - 1`; hence whenever the delay is
nonzero (finite velocity) and the positions differ, the velocity
magnitude is at least `|x2 - x1| * fs / (N - 1)`. -/
theorem C10_quantized_delay (c : RMP_ConvectionVelocityCalculator)
    (N : ℕ) (h1 : c.RMP_data_1.length = N) (h2 : c.RMP_data_2.length = N)
    (hlag : lagDiff c ≠ 0) (_hx : c.RMP_x1 ≠ c.RMP_x2) (hfs : 0 < c.fs) :
    timeDiff c = (lagDiff c : ℝ) / c.fs ∧
    |lagDiff c| ≤ (N : ℤ) - 1 ∧
    |c.RMP_x2 - c.RMP_x1| * c.fs / ((N : ℝ) - 1)
      ≤ |(compute_timedomain c).1| := by
  have hN : 1 ≤ N := by
    by_contra hc
    have hN0 : N = 0 := by omega
    apply hlag
    rw [lagDiff, lags, h1, h2, hN0]
    simp [correlation_lags]
  have hRlen : (Rxy c).length = 2 * N - 1 := by
    rw [Rxy, correlate_length, demean_length, demean_length, h1, h2]
    omega
  set la := (Rxy c).map (fun v => |v|) with hla
  have hlalen : la.length = 2 * N - 1 := by rw [hla, List.length_map, hRlen]
  have hne : la ≠ [] := by
    intro he
    have := congrArg List.length he
    rw [hlalen] at this
    simp at this
    omega
  obtain ⟨hi, -, -⟩ := ind_Rxy_max_spec la hne
  rw [hlalen] at hi
  have hlagval : lagDiff c = ((ind_Rxy_max la : ℤ)) - ((N : ℤ) - 1) := by
    rw [lagDiff, lags, h1, h2, ← hla]
    exact correlation_lags_getD (by omega)
  have habs : |lagDiff c| ≤ (N : ℤ) - 1 := by
    rw [hlagval]
    rw [abs_le]
    omega
  have hlag1 : 1 ≤ |lagDiff c| := by
    rcases lt_trichotomy (lagDiff c) 0 with hc | hc | hc
    · rw [abs_of_neg hc]; omega
    · exact absurd hc hlag
    · rw [abs_of_pos hc]; omega
  have hN2 : 2 ≤ N := by
    have := hlag1.trans habs
    omega
  refine ⟨rfl, habs, ?_⟩
  rw [compute_timedomain]
  simp only []
  rw [timeDiff, abs_div, abs_div]
  rw [abs_of_pos hfs]
  have hlr : |((lagDiff c : ℤ) : ℝ)| = ((|lagDiff c| : ℤ) : ℝ) := by
    rw [Int.cast_abs]
  rw [hlr]
  rw [div_div_eq_mul_div]
  apply div_le_div_of_nonneg_left
  · exact mul_nonneg (abs_nonneg _) hfs.le
  · have : (1 : ℝ) ≤ ((|lagDiff c| : ℤ) : ℝ) := by
      exact_mod_cast hlag1
    linarith
  · exact_mod_cast habs

/-! ## Concrete evaluations for the time-domain claims

`⟨[1,0,-1], [0,3,0], 0, 1, 1⟩` is a tie-breaking example: the de-meaned
signals are `[1,0,-1]` and `[-1,2,-1]`, the cross-correlation is
`[-1,2,0,-2,1]`, so `|Rxy| = [1,2,0,2,1]` attains its maximum at both
index 1 and index 3.  `⟨[3,0,0], [0,3,0], 0, 1, 1⟩` has the unique-peak
correlation `[-2,5,-3,-1,1]`. -/

lemma Rxy_eval1 :
    Rxy ⟨[(1 : ℝ), 0, -1], [0, 3, 0], 0, 1, 1⟩ = [-1, 2, 0, -2, 1] := by
  norm_num [Rxy, demean, correlate, convFull, List.range_succ,
    Finset.sum_range_succ]

lemma ind_eval1 :
    ind_Rxy_max ((Rxy ⟨[(1 : ℝ), 0, -1], [0, 3, 0], 0, 1, 1⟩).map
      (fun v => |v|)) = 3 := by
  rw [Rxy_eval1]
  norm_num [ind_Rxy_max, enumVals, pickMax, lexLt, List.range_succ]

lemma lagDiff_eval1 :
    lagDiff ⟨[(1 : ℝ), 0, -1], [0, 3, 0], 0, 1, 1⟩ = 1 := by
  rw [lagDiff, ind_eval1]
  norm_num [lags, correlation_lags, List.range_succ]

lemma Rxy_eval2 :
    Rxy ⟨[(3 : ℝ), 0, 0], [0, 3, 0], 0, 1, 1⟩ = [-2, 5, -3, -1, 1] := by
  norm_num [Rxy, demean, correlate, convFull, List.range_succ,
    Finset.sum_range_succ]

lemma lagDiff_eval2 :
    lagDiff ⟨[(3 : ℝ), 0, 0], [0, 3, 0], 0, 1, 1⟩ = -1 := by
  rw [lagDiff, Rxy_eval2]
  norm_num [lags, correlation_lags, ind_Rxy_max, enumVals, pickMax, lexLt,
    List.range_succ]

/-- C1 counterexample: at the tie input the code does NOT select the
earliest index of maximum absolute correlation — `|Rxy| = [1,2,0,2,1]`
ties at indices 1 and 3 and the code picks 3. -/
theorem C1_counterexample :
    ¬ isEarliestAbsArgmax (Rxy ⟨[(1 : ℝ), 0, -1], [0, 3, 0], 0, 1, 1⟩)
        (ind_Rxy_max ((Rxy ⟨[(1 : ℝ), 0, -1], [0, 3, 0], 0, 1, 1⟩).map
          (fun v => |v|))) := by
  rw [ind_eval1, Rxy_eval1]
  rintro ⟨-, -, h3⟩
  have := h3 1 (by norm_num)
  norm_num at this

/-- C1 witness: the amended tie-break characterization applied at the
tie input. -/
theorem C1_witness :
    Rxy ⟨[(1 : ℝ), 0, -1], [0, 3, 0], 0, 1, 1⟩ ≠ [] ∧
      isLatestAbsArgmax (Rxy ⟨[(1 : ℝ), 0, -1], [0, 3, 0], 0, 1, 1⟩)
        (ind_Rxy_max ((Rxy ⟨[(1 : ℝ), 0, -1], [0, 3, 0], 0, 1, 1⟩).map
          (fun v => |v|))) := by
  have hne : Rxy ⟨[(1 : ℝ), 0, -1], [0, 3, 0], 0, 1, 1⟩ ≠ [] := by
    rw [Rxy_eval1]
    simp
  exact ⟨hne, C1_latest_tiebreak _ hne⟩

/-- C2: with two identical signals the peak of `|Rxy|` is at lag 0, the
time delay is 0, and `compute_timedomain` still returns a plain numeric
tuple whose velocity is the division `(x2 - x1) / 0` — numpy evaluates
that to `inf` with only a `RuntimeWarning`; no `ZeroLagAmbiguity`
failure (nor any exception) is surfaced to the caller. -/
theorem C2_zero_lag_division :
    lagDiff ⟨[(2 : ℝ), 0], [2, 0], 0, 1, 1⟩ = 0 ∧
    timeDiff ⟨[(2 : ℝ), 0], [2, 0], 0, 1, 1⟩ = 0 ∧
    (compute_timedomain ⟨[(2 : ℝ), 0], [2, 0], 0, 1, 1⟩).1 = (1 : ℝ) / 0 := by
  have hlag : lagDiff ⟨[(2 : ℝ), 0], [2, 0], 0, 1, 1⟩ = 0 := by
    rw [lagDiff]
    norm_num [Rxy, demean, correlate, convFull, lags, correlation_lags,
      ind_Rxy_max, enumVals, pickMax, lexLt, List.range_succ,
      Finset.sum_range_succ]
  have htd : timeDiff ⟨[(2 : ℝ), 0], [2, 0], 0, 1, 1⟩ = 0 := by
    rw [timeDiff, hlag]
    norm_num
  refine ⟨hlag, htd, ?_⟩
  rw [compute_timedomain]
  simp only []
  rw [htd]
  norm_num

/-- C5 counterexample: with equal sensor positions (`x1 = x2 = 1/2`)
`compute_timedomain` raises nothing — it returns the plain numeric
result `(0, Rxy, lags)`; no `DegenerateGeometry` error exists in the
code (and `compute_freqdomain` likewise has no position check). -/
theorem C5_counterexample :
    compute_timedomain ⟨[(3 : ℝ), 0, 0], [0, 3, 0], 1 / 2, 1 / 2, 1⟩
      = (0, [-2, 5, -3, -1, 1], [-2, -1, 0, 1, 2]) := by
  rw [compute_timedomain]
  have hR : Rxy ⟨[(3 : ℝ), 0, 0], [0, 3, 0], 1 / 2, 1 / 2, 1⟩
      = [-2, 5, -3, -1, 1] := by
    norm_num [Rxy, demean, correlate, convFull, List.range_succ,
      Finset.sum_range_succ]
  have hl : lags ⟨[(3 : ℝ), 0, 0], [0, 3, 0], 1 / 2, 1 / 2, 1⟩
      = [-2, -1, 0, 1, 2] := by
    norm_num [lags, correlation_lags, List.range_succ]
  rw [hR, hl]
  norm_num

lemma lagDiff_c5w :
    lagDiff ⟨[(3 : ℝ), 0, 0], [0, 3, 0], 1 / 2, 1 / 2, 4⟩ = -1 := by
  have hR : Rxy ⟨[(3 : ℝ), 0, 0], [0, 3, 0], 1 / 2, 1 / 2, 4⟩
      = [-2, 5, -3, -1, 1] := by
    norm_num [Rxy, demean, correlate, convFull, List.range_succ,
      Finset.sum_range_succ]
  rw [lagDiff, hR]
  norm_num [lags, correlation_lags, ind_Rxy_max, enumVals, pickMax, lexLt,
    List.range_succ]

/-- C5 (amended): the code validates nothing.  Equal sensor positions do
not raise `DegenerateGeometry`: `compute_timedomain` returns the plain
numeric velocity `0 / timeDiff` — exactly `0` whenever the selected lag
is nonzero (numpy yields `0.0 / 0.0 = nan`, still no exception, when it
is zero) — and `compute_freqdomain`, whenever it succeeds, returns the
plain numeric `0 / slope * 2π`, exactly `0` for a nonzero fitted slope.
Signals shorter than the requested window do not raise `InvalidInput`
either: scipy shrinks the segment length to the signal length (with a
`UserWarning`) and proceeds with a single segment, which is the whole
signal, under a Hann window of the shrunken length. -/
theorem C5_no_validation (c : RMP_ConvectionVelocityCalculator)
    (nw no : ℕ) (h : c.RMP_x2 = c.RMP_x1) :
    (lagDiff c ≠ 0 → (compute_timedomain c).1 = 0) ∧
    (∀ r, compute_freqdomain c nw no = .ok r → r.P.1 ≠ 0 → r.Ucv = 0) ∧
    (no < c.RMP_data_1.length → c.RMP_data_1.length < nw →
      nsegs c.RMP_data_1.length nw no = 1 ∧
      welchSegment c.RMP_data_1 nw no 0 = c.RMP_data_1 ∧
      (windowedSeg c.RMP_data_1 nw no 0).length = c.RMP_data_1.length) := by
  refine ⟨?_, ?_, ?_⟩
  · intro _hlag
    rw [compute_timedomain]
    simp only []
    rw [h, sub_self, zero_div]
  · intro r hr _hP
    rw [compute_freqdomain] at hr
    rcases h1 : ind_fmax_fit c nw no with _ | cut
    · rw [h1] at hr
      simp at hr
    · rw [h1] at hr
      simp only [] at hr
      rcases h2 : polyfit1 (((f_Pxy c.fs nw).drop 1).take (cut - 1))
          (unwrap (phi_xy c nw no cut)) with _ | P
      · rw [h2] at hr
        simp at hr
      · rw [h2] at hr
        simp only [Except.ok.injEq] at hr
        rw [← hr]
        simp only []
        rw [h, sub_self, zero_div, zero_mul, zero_mul]
  · intro hno hlen
    have heff : effPerseg nw c.RMP_data_1.length = c.RMP_data_1.length := by
      rw [effPerseg]
      omega
    refine ⟨?_, ?_, ?_⟩
    · rw [nsegs, heff]
      exact Nat.div_self (by omega)
    · rw [welchSegment, heff]
      simp
    · rw [windowedSeg, List.length_map, List.length_range, heff]

/-- C5 witness: the amended no-validation theorem applied at equal
positions `x1 = x2 = 1/2` with a 3-sample signal and a requested window
of 4: the selected lag is `-1`, so the time-domain velocity is exactly
`0`; the shrunken Welch run has a single segment equal to the whole
signal under a length-3 window. -/
theorem C5_witness :
    ((1 : ℝ) / 2 = 1 / 2) ∧
    (compute_timedomain ⟨[(3 : ℝ), 0, 0], [0, 3, 0], 1 / 2, 1 / 2, 4⟩).1 = 0 ∧
    (∀ r, compute_freqdomain ⟨[(3 : ℝ), 0, 0], [0, 3, 0], 1 / 2, 1 / 2, 4⟩ 4 2
        = .ok r → r.P.1 ≠ 0 → r.Ucv = 0) ∧
    nsegs 3 4 2 = 1 ∧
    welchSegment [(3 : ℝ), 0, 0] 4 2 0 = [3, 0, 0] := by
  have thm := C5_no_validation ⟨[(3 : ℝ), 0, 0], [0, 3, 0], 1 / 2, 1 / 2, 4⟩
    4 2 rfl
  have hshort := thm.2.2 (by norm_num) (by norm_num)
  exact ⟨rfl, thm.1 (by rw [lagDiff_c5w]; decide), thm.2.1, hshort.1,
    hshort.2.1⟩

/-- C7 counterexample: exchanging the signals and the positions does NOT
negate the time-domain velocity.  At this input the velocity is `-1`
before and after the swap (the correlation array reverses, the selected
lag negates, and the negated position difference cancels it). -/
theorem C7_counterexample :
    (compute_timedomain (swapCalc ⟨[(3 : ℝ), 0, 0], [0, 3, 0], 0, 1, 1⟩)).1
      ≠ -(compute_timedomain ⟨[(3 : ℝ), 0, 0], [0, 3, 0], 0, 1, 1⟩).1 := by
  have h1 : (compute_timedomain ⟨[(3 : ℝ), 0, 0], [0, 3, 0], 0, 1, 1⟩).1
      = -1 := by
    rw [compute_timedomain]
    simp only []
    rw [timeDiff, lagDiff_eval2]
    norm_num
  have hlag2 : lagDiff (swapCalc ⟨[(3 : ℝ), 0, 0], [0, 3, 0], 0, 1, 1⟩)
      = 1 := by
    rw [swapCalc, lagDiff]
    norm_num [Rxy, demean, correlate, convFull, lags, correlation_lags,
      ind_Rxy_max, enumVals, pickMax, lexLt, List.range_succ,
      Finset.sum_range_succ]
  have h2 : (compute_timedomain
      (swapCalc ⟨[(3 : ℝ), 0, 0], [0, 3, 0], 0, 1, 1⟩)).1 = -1 := by
    rw [compute_timedomain]
    simp only []
    rw [timeDiff, hlag2]
    norm_num [swapCalc]
  rw [h1, h2]
  norm_num

/-- C7 witness: the amended swap-invariance theorem applied at the
unique-peak input (`|Rxy| = [2,5,3,1,1]`, unique maximum at index 1). -/
theorem C7_witness :
    (∀ j, j < 2 * 3 - 1 → j ≠ 1 →
      |(Rxy ⟨[(3 : ℝ), 0, 0], [0, 3, 0], 0, 1, 1⟩).getD j 0|
        < |(Rxy ⟨[(3 : ℝ), 0, 0], [0, 3, 0], 0, 1, 1⟩).getD 1 0|) ∧
    (compute_timedomain (swapCalc ⟨[(3 : ℝ), 0, 0], [0, 3, 0], 0, 1, 1⟩)).1
      = (compute_timedomain ⟨[(3 : ℝ), 0, 0], [0, 3, 0], 0, 1, 1⟩).1 := by
  have hmax : ∀ j, j < 2 * 3 - 1 → j ≠ 1 →
      |(Rxy ⟨[(3 : ℝ), 0, 0], [0, 3, 0], 0, 1, 1⟩).getD j 0|
        < |(Rxy ⟨[(3 : ℝ), 0, 0], [0, 3, 0], 0, 1, 1⟩).getD 1 0| := by
    intro j hj hju
    rw [Rxy_eval2]
    interval_cases j
    · norm_num
    · exact absurd rfl hju
    · norm_num
    · norm_num
    · norm_num
  exact ⟨hmax, C7_swap_same_velocity _ 3 1 rfl rfl (by norm_num)
    (by norm_num) hmax⟩

/-- C8 witness: the correlation-estimate contract applied at the
unique-peak input with `N = 3`. -/
theorem C8_witness :
    ((lags ⟨[(3 : ℝ), 0, 0], [0, 3, 0], 0, 1, 1⟩).length = 2 * 3 - 1 ∧
      ∀ k, k < 2 * 3 - 1 →
        (lags ⟨[(3 : ℝ), 0, 0], [0, 3, 0], 0, 1, 1⟩).getD k 0
          = (k : ℤ) - (((3 : ℕ) : ℤ) - 1)) ∧
    (∀ k, k < 2 * 3 - 1 →
      (Rxy ⟨[(3 : ℝ), 0, 0], [0, 3, 0], 0, 1, 1⟩).getD k 0
        = xcorrSpec (demean [(3 : ℝ), 0, 0]) (demean [(0 : ℝ), 3, 0])
            ((k : ℤ) - (((3 : ℕ) : ℤ) - 1))) ∧
    (Rxy ⟨[(3 : ℝ), 0, 0], [0, 3, 0], 0, 1, 1⟩).getD (3 - 1) 0
      = (((demean [(3 : ℝ), 0, 0]).zip (demean [(0 : ℝ), 3, 0])).map
          (fun p => p.1 * p.2)).sum :=
  C8_correlation_estimate ⟨[(3 : ℝ), 0, 0], [0, 3, 0], 0, 1, 1⟩ 3 rfl rfl
    (by norm_num)

/-- C10 witness: the quantized-delay bound applied at the unique-peak
input (`lagDiff = -1`, `N = 3`, `fs = 1`, positions `0` and `1`). -/
theorem C10_witness :
    (lagDiff ⟨[(3 : ℝ), 0, 0], [0, 3, 0], 0, 1, 1⟩ ≠ 0 ∧
      (0 : ℝ) ≠ 1 ∧ (0 : ℝ) < 1) ∧
    (timeDiff ⟨[(3 : ℝ), 0, 0], [0, 3, 0], 0, 1, 1⟩
        = ((lagDiff ⟨[(3 : ℝ), 0, 0], [0, 3, 0], 0, 1, 1⟩ : ℤ) : ℝ) / 1 ∧
      |lagDiff ⟨[(3 : ℝ), 0, 0], [0, 3, 0], 0, 1, 1⟩| ≤ ((3 : ℕ) : ℤ) - 1 ∧
      |(1 : ℝ) - 0| * 1 / (((3 : ℕ) : ℝ) - 1)
        ≤ |(compute_timedomain ⟨[(3 : ℝ), 0, 0], [0, 3, 0], 0, 1, 1⟩).1|) := by
  have hlagne : lagDiff ⟨[(3 : ℝ), 0, 0], [0, 3, 0], 0, 1, 1⟩ ≠ 0 := by
    rw [lagDiff_eval2]
    norm_num
  exact ⟨⟨hlagne, by norm_num, by norm_num⟩,
    C10_quantized_delay ⟨[(3 : ℝ), 0, 0], [0, 3, 0], 0, 1, 1⟩ 3 rfl rfl
      hlagne (by norm_num) (by norm_num)⟩

/-! ## Frequency-domain claim theorems -/

/-- C9 witness: the coherence bound applied to a concrete calculator. -/
theorem C9_witness :
    ([(1 : ℝ), 2].length = [(3 : ℝ), 4].length) ∧
    (0 ≤ gamma2 ⟨[(1 : ℝ), 2], [3, 4], 0, 1, 1⟩ 2 0 0 ∧
      gamma2 ⟨[(1 : ℝ), 2], [3, 4], 0, 1, 1⟩ 2 0 0 ≤ 1) :=
  ⟨rfl, C9_coherence_bounds ⟨[(1 : ℝ), 2], [3, 4], 0, 1, 1⟩ 2 0 0 rfl⟩

lemma f_Pxy_length (fs : ℝ) (nw : ℕ) : (f_Pxy fs nw).length = nbins nw := by
  rw [f_Pxy, List.length_map, List.length_range]

lemma PxyList_length (c : RMP_ConvectionVelocityCalculator) (nw no : ℕ) :
    (PxyList c nw no).length = nbins nw := by
  rw [PxyList, List.length_map, List.length_range]

lemma unwrapAux_length (l : List ℝ) :
    ∀ prev acc, (unwrapAux prev acc l).length = l.length := by
  induction l with
  | nil => intro prev acc; rfl
  | cons b rest ih =>
      intro prev acc
      simp only [unwrapAux, List.length_cons]
      rw [ih]

lemma unwrap_length (l : List ℝ) : (unwrap l).length = l.length := by
  cases l with
  | nil => rfl
  | cons a rest =>
      simp only [unwrap, List.length_cons]
      rw [unwrapAux_length]

lemma getD_slice (l : List ℝ) (t i : ℕ) (hi : i < t) (hl : 1 + i < l.length) :
    ((l.drop 1).take t).getD i 0 = l.getD (1 + i) 0 := by
  have h1 : i < ((l.drop 1).take t).length := by
    rw [List.length_take, List.length_drop]
    omega
  rw [List.getD_eq_getElem _ _ h1, List.getD_eq_getElem _ _ (by omega)]
  rw [List.getElem_take, List.getElem_drop]

/-- Unpack `ind_fmax_fit = some cut` through the filtered index list:
`cut` is a frequency bin with coherence at least `0.1`, and every later
bin is below the threshold. -/
lemma ind_fmax_fit_spec (c : RMP_ConvectionVelocityCalculator)
    (nw no cut : ℕ) (h : ind_fmax_fit c nw no = some cut) :
    cut < nbins nw ∧ 0.1 ≤ gamma2 c nw no cut ∧
      ∀ j, cut < j → j < nbins nw → gamma2 c nw no j < 0.1 := by
  rw [ind_fmax_fit, ind_tmp] at h
  obtain ⟨h1, h2, h3⟩ := getLast_filter_range _ _ _ h
  refine ⟨h1, of_decide_eq_true h2, ?_⟩
  intro j hj1 hj2
  have := h3 j hj1 hj2
  have h4 := of_decide_eq_false this
  exact lt_of_not_le h4

/-- C3: under the claim´s well-posedness conditions (positive sampling
rate and window, cutoff index giving a fit range `[1, cut)` with at
least two points), `compute_freqdomain` succeeds and the returned
velocity is `(x2 - x1) / slope * 2π` where `slope` is the ordinary
least-squares slope of the unwrapped CSD phase against frequency over
the fit range. -/
theorem C3_freq_velocity_formula (c : RMP_ConvectionVelocityCalculator)
    (nw no cut : ℕ) (hnw : 0 < nw) (hfs : 0 < c.fs)
    (hcut : ind_fmax_fit c nw no = some cut) (h3 : 3 ≤ cut) :
    ∃ r, compute_freqdomain c nw no = .ok r ∧
      r.Ucv = (c.RMP_x2 - c.RMP_x1) /
        olsSlope (((f_Pxy c.fs nw).drop 1).take (cut - 1))
          (unwrap (phi_xy c nw no cut)) * (2 * Real.pi) := by
  obtain ⟨hlt, -, -⟩ := ind_fmax_fit_spec c nw no cut hcut
  set fx := ((f_Pxy c.fs nw).drop 1).take (cut - 1) with hfx
  set ys := unwrap (phi_xy c nw no cut) with hys
  have hfxlen : fx.length = cut - 1 := by
    rw [hfx, List.length_take, List.length_drop, f_Pxy_length]
    omega
  have hyslen : ys.length = cut - 1 := by
    rw [hys, unwrap_length, phi_xy, List.length_map, List.length_take,
      List.length_drop, PxyList_length]
    omega
  have hfx0 : fx.getD 0 0 = (1 : ℝ) * c.fs / nw := by
    rw [hfx, getD_slice _ _ _ (by omega) (by rw [f_Pxy_length]; omega)]
    rw [f_Pxy, getD_map_range _ _ (by omega : 1 + 0 < nbins nw)]
    norm_num
  have hfx1 : fx.getD 1 0 = (2 : ℝ) * c.fs / nw := by
    rw [hfx, getD_slice _ _ _ (by omega) (by rw [f_Pxy_length]; omega)]
    rw [f_Pxy, getD_map_range _ _ (by omega : 1 + 1 < nbins nw)]
    norm_num
  have hne : fx.getD 0 0 ≠ fx.getD 1 0 := by
    rw [hfx0, hfx1]
    have hq : (0 : ℝ) < c.fs / nw := by
      apply div_pos hfs
      exact_mod_cast hnw
    intro heq
    rw [mul_div_assoc, mul_div_assoc] at heq
    nlinarith
  have hvar := centered_var_pos fx (by omega) hne
  obtain ⟨P, hP, hPs⟩ := polyfit1_slope_eq_olsSlope fx ys
    (by rw [hfxlen, hyslen]) (by omega) hvar
  refine ⟨⟨(c.RMP_x2 - c.RMP_x1) / P.1 * 2 * Real.pi,
    (List.range (nbins nw)).map (gamma2 c nw no), cut, P,
    f_Pxy c.fs nw, PxyList c nw no⟩, ?_, ?_⟩
  · rw [compute_freqdomain, hcut]
    simp only []
    rw [← hfx, ← hys, hP]
  · simp only []
    rw [hPs, mul_assoc]

/-- C4 (amended): whenever `ind_fmax_fit` produces a cutoff, that cutoff
is the LARGEST frequency-bin index with coherence `≥ 0.1` (literal
last-index semantics, no monotonicity assumed), and it satisfies the
upper bound `cut ≤ nbins - 1`; on success the stored fit is the
polyfit over the frequency/phase slices `[1, cut)` (bin 0 excluded).
The lower bound `1 ≤ cut` claimed by the spec does not hold in general
(see the counterexample with cutoff 0). -/
theorem C4_cutoff_last_index (c : RMP_ConvectionVelocityCalculator)
    (nw no cut : ℕ) (h : ind_fmax_fit c nw no = some cut) :
    (0.1 ≤ gamma2 c nw no cut ∧
      ∀ j, cut < j → j < nbins nw → gamma2 c nw no j < 0.1) ∧
    cut ≤ nbins nw - 1 ∧
    (∀ r, compute_freqdomain c nw no = .ok r →
      r.ind_fmax_fit = cut ∧
      some r.P = polyfit1 (((f_Pxy c.fs nw).drop 1).take (cut - 1))
        (unwrap (phi_xy c nw no cut))) := by
  obtain ⟨h1, h2, h3⟩ := ind_fmax_fit_spec c nw no cut h
  refine ⟨⟨h2, h3⟩, by omega, ?_⟩
  intro r hr
  rw [compute_freqdomain, h] at hr
  simp only [] at hr
  rcases hp : polyfit1 (((f_Pxy c.fs nw).drop 1).take (cut - 1))
      (unwrap (phi_xy c nw no cut)) with _ | P
  · rw [hp] at hr
    simp at hr
  · rw [hp] at hr
    simp only [Except.ok.injEq] at hr
    rw [← hr]
    exact ⟨rfl, rfl⟩

/-- C6 (amended): when no bin reaches the coherence threshold the code
fails explicitly (`ind_tmp[-1]` raises `IndexError`), and when the fit
range `[1, cut)` is empty (`cut ≤ 1`) the code fails explicitly
(`np.polyfit` raises on an empty vector).  When the fit range holds
exactly ONE point, however, the code does NOT fail — see the
counterexample, where a numeric velocity is returned from a one-point
fit. -/
theorem C6_explicit_failures (c : RMP_ConvectionVelocityCalculator)
    (nw no : ℕ) :
    (ind_fmax_fit c nw no = none →
      compute_freqdomain c nw no = .error .indexError) ∧
    (∀ cut, ind_fmax_fit c nw no = some cut → cut ≤ 1 →
      compute_freqdomain c nw no = .error .polyfitError) := by
  constructor
  · intro h
    rw [compute_freqdomain, h]
  · intro cut h hcut
    rw [compute_freqdomain, h]
    simp only []
    have hempty : ((f_Pxy c.fs nw).drop 1).take (cut - 1) = [] := by
      have : cut - 1 = 0 := by omega
      rw [this, List.take_zero]
    rw [hempty]
    rfl

/-! ## Exact complex-exponential values for the concrete spectra -/

lemma cexp_real (x : ℝ) : Complex.exp ((x : ℂ) * Complex.I)
    = ((Real.cos x : ℝ) : ℂ) + ((Real.sin x : ℝ) : ℂ) * Complex.I := by
  rw [Complex.exp_mul_I, ← Complex.ofReal_cos, ← Complex.ofReal_sin]

lemma cexp_neg_pi_div_two :
    Complex.exp (((-(Real.pi / 2) : ℝ) : ℂ) * Complex.I) = -Complex.I := by
  rw [cexp_real, Real.cos_neg, Real.sin_neg, Real.cos_pi_div_two,
    Real.sin_pi_div_two]
  simp

lemma cexp_neg_pi :
    Complex.exp (((-Real.pi : ℝ) : ℂ) * Complex.I) = -1 := by
  rw [cexp_real, Real.cos_neg, Real.sin_neg, Real.cos_pi, Real.sin_pi]
  simp

lemma cexp_neg_quarter (m : ℕ) :
    Complex.exp (((-(Real.pi / 2 * m) : ℝ) : ℂ) * Complex.I)
      = (-Complex.I) ^ m := by
  induction m with
  | zero => simp
  | succ k ih =>
      have harg : (-(Real.pi / 2 * ((k : ℕ) + 1 : ℕ)) : ℝ)
          = -(Real.pi / 2 * k) + -(Real.pi / 2) := by
        push_cast
        ring
      rw [harg, Complex.ofReal_add, add_mul, Complex.exp_add, ih,
        cexp_neg_pi_div_two, pow_succ]

lemma cexp_neg_pi_mul (m : ℕ) :
    Complex.exp (((-(Real.pi * m) : ℝ) : ℂ) * Complex.I)
      = (-1) ^ m := by
  induction m with
  | zero => simp
  | succ k ih =>
      have harg : (-(Real.pi * ((k : ℕ) + 1 : ℕ)) : ℝ)
          = -(Real.pi * k) + -Real.pi := by
        push_cast
        ring
      rw [harg, Complex.ofReal_add, add_mul, Complex.exp_add, ih,
        cexp_neg_pi, pow_succ]

lemma cos_pi_add_val (x : ℝ) : Real.cos (Real.pi + x) = -Real.cos x := by
  rw [Real.cos_add, Real.cos_pi, Real.sin_pi]
  ring

lemma hann4_0 : hann 4 0 = 0 := by
  rw [hann]
  norm_num

lemma hann4_1 : hann 4 1 = 1 / 2 := by
  rw [hann]
  have h : 2 * Real.pi * ((1 : ℕ) : ℝ) / ((4 : ℕ) : ℝ) = Real.pi / 2 := by
    push_cast
    ring
  rw [h, Real.cos_pi_div_two]
  norm_num

lemma hann4_2 : hann 4 2 = 1 := by
  rw [hann]
  have h : 2 * Real.pi * ((2 : ℕ) : ℝ) / ((4 : ℕ) : ℝ) = Real.pi := by
    push_cast
    ring
  rw [h, Real.cos_pi]
  norm_num

lemma hann4_3 : hann 4 3 = 1 / 2 := by
  rw [hann]
  have h : 2 * Real.pi * ((3 : ℕ) : ℝ) / ((4 : ℕ) : ℝ)
      = Real.pi + Real.pi / 2 := by
    push_cast
    ring
  rw [h, cos_pi_add_val, Real.cos_pi_div_two]
  norm_num

lemma hann6_0 : hann 6 0 = 0 := by
  rw [hann]
  norm_num

lemma hann6_1 : hann 6 1 = 1 / 4 := by
  rw [hann]
  have h : 2 * Real.pi * ((1 : ℕ) : ℝ) / ((6 : ℕ) : ℝ) = Real.pi / 3 := by
    push_cast
    ring
  rw [h, Real.cos_pi_div_three]
  norm_num

lemma hann6_2 : hann 6 2 = 3 / 4 := by
  rw [hann]
  have h : 2 * Real.pi * ((2 : ℕ) : ℝ) / ((6 : ℕ) : ℝ)
      = Real.pi - Real.pi / 3 := by
    push_cast
    ring
  rw [h, Real.cos_pi_sub, Real.cos_pi_div_three]
  norm_num

lemma hann6_3 : hann 6 3 = 1 := by
  rw [hann]
  have h : 2 * Real.pi * ((3 : ℕ) : ℝ) / ((6 : ℕ) : ℝ) = Real.pi := by
    push_cast
    ring
  rw [h, Real.cos_pi]
  norm_num

lemma hann6_4 : hann 6 4 = 3 / 4 := by
  rw [hann]
  have h : 2 * Real.pi * ((4 : ℕ) : ℝ) / ((6 : ℕ) : ℝ)
      = Real.pi + Real.pi / 3 := by
    push_cast
    ring
  rw [h, cos_pi_add_val, Real.cos_pi_div_three]
  norm_num

lemma hann6_5 : hann 6 5 = 1 / 4 := by
  rw [hann]
  have h : 2 * Real.pi * ((5 : ℕ) : ℝ) / ((6 : ℕ) : ℝ)
      = Real.pi + (Real.pi - Real.pi / 3) := by
    push_cast
    ring
  rw [h, cos_pi_add_val, Real.cos_pi_sub, Real.cos_pi_div_three]
  norm_num

lemma hann4_sumsq : ∑ n in Finset.range 4, hann 4 n ^ 2 = 3 / 2 := by
  rw [Finset.sum_range_succ, Finset.sum_range_succ, Finset.sum_range_succ,
    Finset.sum_range_succ, Finset.sum_range_zero, hann4_0, hann4_1, hann4_2,
    hann4_3]
  norm_num

lemma hann6_sumsq : ∑ n in Finset.range 6, hann 6 n ^ 2 = 9 / 4 := by
  rw [Finset.sum_range_succ, Finset.sum_range_succ, Finset.sum_range_succ,
    Finset.sum_range_succ, Finset.sum_range_succ, Finset.sum_range_succ,
    Finset.sum_range_zero, hann6_0, hann6_1, hann6_2, hann6_3, hann6_4,
    hann6_5]
  norm_num

lemma effPerseg_of_le {nw len : ℕ} (h : nw ≤ len) : effPerseg nw len = nw := by
  rw [effPerseg]
  omega

lemma winScale4_0 (len : ℕ) (h : 4 ≤ len) : winScale 4 4 len 0 = 1 / 6 := by
  rw [winScale, effPerseg_of_le h, hann4_sumsq]
  norm_num

lemma winScale4_1 (len : ℕ) (h : 4 ≤ len) : winScale 4 4 len 1 = 1 / 3 := by
  rw [winScale, effPerseg_of_le h, hann4_sumsq]
  norm_num

lemma winScale4_2 (len : ℕ) (h : 4 ≤ len) : winScale 4 4 len 2 = 1 / 6 := by
  rw [winScale, effPerseg_of_le h, hann4_sumsq]
  norm_num

lemma winScale6_3 (len : ℕ) (h : 6 ≤ len) : winScale 6 6 len 3 = 2 / 27 := by
  rw [winScale, effPerseg_of_le h, hann6_sumsq]
  norm_num

lemma segDFT4_expand (x : List ℝ) (no k j : ℕ) :
    segDFT x 4 no k j
      = (((windowedSeg x 4 no k).getD 0 0 : ℝ) : ℂ)
        + (((windowedSeg x 4 no k).getD 1 0 : ℝ) : ℂ) * (-Complex.I) ^ j
        + (((windowedSeg x 4 no k).getD 2 0 : ℝ) : ℂ) * (-Complex.I) ^ (j * 2)
        + (((windowedSeg x 4 no k).getD 3 0 : ℝ) : ℂ)
            * (-Complex.I) ^ (j * 3) := by
  rw [segDFT]
  rw [Finset.sum_range_succ, Finset.sum_range_succ, Finset.sum_range_succ,
    Finset.sum_range_succ, Finset.sum_range_zero]
  have egen : ∀ n : ℕ,
      Complex.exp (((-(2 * Real.pi * (j : ℕ) * (n : ℕ) / ((4 : ℕ) : ℝ))
          : ℝ) : ℂ) * Complex.I) = (-Complex.I) ^ (j * n) := by
    intro n
    have harg : (-(2 * Real.pi * (j : ℕ) * (n : ℕ) / ((4 : ℕ) : ℝ)) : ℝ)
        = -(Real.pi / 2 * ((j * n : ℕ) : ℝ)) := by
      push_cast
      ring
    rw [harg, cexp_neg_quarter]
  rw [egen 0, egen 1, egen 2, egen 3]
  have e0 : j * 0 = 0 := Nat.mul_zero j
  have e1 : j * 1 = j := Nat.mul_one j
  rw [e0, e1, pow_zero, mul_one, zero_add]

lemma segDFT6_bin3 (x : List ℝ) (no k : ℕ) :
    segDFT x 6 no k 3
      = ∑ n in Finset.range 6,
          (((windowedSeg x 6 no k).getD n 0 : ℝ) : ℂ) * (-1) ^ n := by
  rw [segDFT]
  apply Finset.sum_congr rfl
  intro n hn
  congr 1
  have harg : (-(2 * Real.pi * ((3 : ℕ) : ℝ) * (n : ℕ) / ((6 : ℕ) : ℝ)) : ℝ)
      = -(Real.pi * (n : ℝ)) := by
    push_cast
    ring
  rw [harg]
  exact cexp_neg_pi_mul n

lemma wseg_c4x0 : windowedSeg [(-2 : ℝ), 2, 0, 0, -1, 0, 1, 0] 4 0 0
    = [0, 1, 0, 0] := by
  norm_num [windowedSeg, welchSegment, detrendConst, effPerseg, Nat.min_def,
    List.range_succ,
    hann4_0, hann4_1, hann4_2, hann4_3]

lemma wseg_c4x1 : windowedSeg [(-2 : ℝ), 2, 0, 0, -1, 0, 1, 0] 4 0 1
    = [0, 0, 1, 0] := by
  norm_num [windowedSeg, welchSegment, detrendConst, effPerseg, Nat.min_def,
    List.range_succ,
    hann4_0, hann4_1, hann4_2, hann4_3]

lemma wseg_c4y0 : windowedSeg [(-2 : ℝ), 0, 0, 2, -5, 2, 1, 2] 4 0 0
    = [0, 0, 0, 1] := by
  norm_num [windowedSeg, welchSegment, detrendConst, effPerseg, Nat.min_def,
    List.range_succ,
    hann4_0, hann4_1, hann4_2, hann4_3]

lemma wseg_c4y1 : windowedSeg [(-2 : ℝ), 0, 0, 2, -5, 2, 1, 2] 4 0 1
    = [0, 1, 1, 1] := by
  norm_num [windowedSeg, welchSegment, detrendConst, effPerseg, Nat.min_def,
    List.range_succ,
    hann4_0, hann4_1, hann4_2, hann4_3]

lemma wseg_c6wx : windowedSeg [(0 : ℝ), 2, 0, -2] 4 0 0
    = [0, 1, 0, -1] := by
  norm_num [windowedSeg, welchSegment, detrendConst, effPerseg, Nat.min_def,
    List.range_succ,
    hann4_0, hann4_1, hann4_2, hann4_3]

lemma wseg_c6wy : windowedSeg [(-4 : ℝ), 2, 0, 2] 4 0 0
    = [0, 1, 0, 1] := by
  norm_num [windowedSeg, welchSegment, detrendConst, effPerseg, Nat.min_def,
    List.range_succ,
    hann4_0, hann4_1, hann4_2, hann4_3]

lemma wseg_c6cx : windowedSeg [(-2 : ℝ), 2, 0, 0] 4 0 0
    = [0, 1, 0, 0] := by
  norm_num [windowedSeg, welchSegment, detrendConst, effPerseg, Nat.min_def,
    List.range_succ,
    hann4_0, hann4_1, hann4_2, hann4_3]

lemma wseg_c6cy : windowedSeg [(-1 : ℝ), 0, 1, 0] 4 0 0
    = [0, 0, 1, 0] := by
  norm_num [windowedSeg, welchSegment, detrendConst, effPerseg, Nat.min_def,
    List.range_succ,
    hann4_0, hann4_1, hann4_2, hann4_3]

lemma wseg_c3wx : windowedSeg [(0 : ℝ), 0, 0, 2, 0, -2] 6 3 0
    = [0, 0, 0, 2, 0, -1 / 2] := by
  norm_num [windowedSeg, welchSegment, detrendConst, effPerseg, Nat.min_def,
    List.range_succ,
    hann6_0, hann6_1, hann6_2, hann6_3, hann6_4, hann6_5]

lemma wseg_c3wy : windowedSeg [(0 : ℝ), 0, 2, -2, 0, 0] 6 3 0
    = [0, 0, 3 / 2, -2, 0, 0] := by
  norm_num [windowedSeg, welchSegment, detrendConst, effPerseg, Nat.min_def,
    List.range_succ,
    hann6_0, hann6_1, hann6_2, hann6_3, hann6_4, hann6_5]

lemma dft_c4x00 : segDFT [(-2 : ℝ), 2, 0, 0, -1, 0, 1, 0] 4 0 0 0 = 1 := by
  rw [segDFT4_expand, wseg_c4x0]
  norm_num

lemma dft_c4x01 : segDFT [(-2 : ℝ), 2, 0, 0, -1, 0, 1, 0] 4 0 0 1
    = -Complex.I := by
  rw [segDFT4_expand, wseg_c4x0]
  norm_num

lemma dft_c4x02 : segDFT [(-2 : ℝ), 2, 0, 0, -1, 0, 1, 0] 4 0 0 2 = -1 := by
  rw [segDFT4_expand, wseg_c4x0]
  simp [pow_succ, Complex.I_sq]

lemma dft_c4x10 : segDFT [(-2 : ℝ), 2, 0, 0, -1, 0, 1, 0] 4 0 1 0 = 1 := by
  rw [segDFT4_expand, wseg_c4x1]
  norm_num

lemma dft_c4x11 : segDFT [(-2 : ℝ), 2, 0, 0, -1, 0, 1, 0] 4 0 1 1 = -1 := by
  rw [segDFT4_expand, wseg_c4x1]
  simp [pow_succ, Complex.I_sq]

lemma dft_c4x12 : segDFT [(-2 : ℝ), 2, 0, 0, -1, 0, 1, 0] 4 0 1 2 = 1 := by
  rw [segDFT4_expand, wseg_c4x1]
  simp [pow_succ, Complex.I_sq]

lemma dft_c4y00 : segDFT [(-2 : ℝ), 0, 0, 2, -5, 2, 1, 2] 4 0 0 0 = 1 := by
  rw [segDFT4_expand, wseg_c4y0]
  norm_num

lemma dft_c4y01 : segDFT [(-2 : ℝ), 0, 0, 2, -5, 2, 1, 2] 4 0 0 1
    = Complex.I := by
  rw [segDFT4_expand, wseg_c4y0]
  simp [pow_succ, Complex.I_sq]

lemma dft_c4y02 : segDFT [(-2 : ℝ), 0, 0, 2, -5, 2, 1, 2] 4 0 0 2 = -1 := by
  rw [segDFT4_expand, wseg_c4y0]
  simp [pow_succ, Complex.I_sq]

lemma dft_c4y10 : segDFT [(-2 : ℝ), 0, 0, 2, -5, 2, 1, 2] 4 0 1 0 = 3 := by
  rw [segDFT4_expand, wseg_c4y1]
  norm_num

lemma dft_c4y11 : segDFT [(-2 : ℝ), 0, 0, 2, -5, 2, 1, 2] 4 0 1 1 = -1 := by
  rw [segDFT4_expand, wseg_c4y1]
  simp [pow_succ, Complex.I_sq]

lemma dft_c4y12 : segDFT [(-2 : ℝ), 0, 0, 2, -5, 2, 1, 2] 4 0 1 2 = -1 := by
  rw [segDFT4_expand, wseg_c4y1]
  simp [pow_succ, Complex.I_sq]

lemma dft_c6wx0 : segDFT [(0 : ℝ), 2, 0, -2] 4 0 0 0 = 0 := by
  rw [segDFT4_expand, wseg_c6wx]
  norm_num

lemma dft_c6wx1 : segDFT [(0 : ℝ), 2, 0, -2] 4 0 0 1 = -2 * Complex.I := by
  rw [segDFT4_expand, wseg_c6wx]
  simp [pow_succ, Complex.I_sq]
  ring

lemma dft_c6wx2 : segDFT [(0 : ℝ), 2, 0, -2] 4 0 0 2 = 0 := by
  rw [segDFT4_expand, wseg_c6wx]
  simp [pow_succ, Complex.I_sq]

lemma dft_c6wy0 : segDFT [(-4 : ℝ), 2, 0, 2] 4 0 0 0 = 2 := by
  rw [segDFT4_expand, wseg_c6wy]
  norm_num

lemma dft_c6wy1 : segDFT [(-4 : ℝ), 2, 0, 2] 4 0 0 1 = 0 := by
  rw [segDFT4_expand, wseg_c6wy]
  simp [pow_succ, Complex.I_sq]

lemma dft_c6wy2 : segDFT [(-4 : ℝ), 2, 0, 2] 4 0 0 2 = -2 := by
  rw [segDFT4_expand, wseg_c6wy]
  simp [pow_succ, Complex.I_sq]
  ring

lemma dft_c6cx2 : segDFT [(-2 : ℝ), 2, 0, 0] 4 0 0 2 = -1 := by
  rw [segDFT4_expand, wseg_c6cx]
  simp [pow_succ, Complex.I_sq]

lemma dft_c6cy2 : segDFT [(-1 : ℝ), 0, 1, 0] 4 0 0 2 = 1 := by
  rw [segDFT4_expand, wseg_c6cy]
  simp [pow_succ, Complex.I_sq]

lemma dft_c3wx3 : segDFT [(0 : ℝ), 0, 0, 2, 0, -2] 6 3 0 3 = -3 / 2 := by
  rw [segDFT6_bin3, wseg_c3wx]
  rw [Finset.sum_range_succ, Finset.sum_range_succ, Finset.sum_range_succ,
    Finset.sum_range_succ, Finset.sum_range_succ, Finset.sum_range_succ,
    Finset.sum_range_zero]
  norm_num

lemma dft_c3wy3 : segDFT [(0 : ℝ), 0, 2, -2, 0, 0] 6 3 0 3 = 7 / 2 := by
  rw [segDFT6_bin3, wseg_c3wy]
  rw [Finset.sum_range_succ, Finset.sum_range_succ, Finset.sum_range_succ,
    Finset.sum_range_succ, Finset.sum_range_succ, Finset.sum_range_succ,
    Finset.sum_range_zero]
  norm_num

lemma nsegs_840 : nsegs 8 4 0 = 2 := by decide

lemma nsegs_440 : nsegs 4 4 0 = 1 := by decide

lemma nsegs_663 : nsegs 6 6 3 = 1 := by decide

lemma csd_c4_0 :
    csd [(-2 : ℝ), 2, 0, 0, -1, 0, 1, 0] [(-2 : ℝ), 0, 0, 2, -5, 2, 1, 2]
      4 4 0 0 = ((1 / 3 : ℝ) : ℂ) := by
  rw [csd]
  have hL : (([(-2 : ℝ), 2, 0, 0, -1, 0, 1, 0]) : List ℝ).length = 8 := rfl
  rw [hL, nsegs_840, winScale4_0 8 (by norm_num), Finset.sum_range_succ, Finset.sum_range_succ,
    Finset.sum_range_zero, dft_c4x00, dft_c4x10, dft_c4y00, dft_c4y10]
  simp [Complex.ext_iff]
  norm_num

lemma csd_c4_1 :
    csd [(-2 : ℝ), 2, 0, 0, -1, 0, 1, 0] [(-2 : ℝ), 0, 0, 2, -5, 2, 1, 2]
      4 4 0 1 = 0 := by
  rw [csd]
  have hL : (([(-2 : ℝ), 2, 0, 0, -1, 0, 1, 0]) : List ℝ).length = 8 := rfl
  rw [hL, nsegs_840, winScale4_1 8 (by norm_num), Finset.sum_range_succ, Finset.sum_range_succ,
    Finset.sum_range_zero, dft_c4x01, dft_c4x11, dft_c4y01, dft_c4y11]
  simp [Complex.ext_iff]

lemma csd_c4_2 :
    csd [(-2 : ℝ), 2, 0, 0, -1, 0, 1, 0] [(-2 : ℝ), 0, 0, 2, -5, 2, 1, 2]
      4 4 0 2 = 0 := by
  rw [csd]
  have hL : (([(-2 : ℝ), 2, 0, 0, -1, 0, 1, 0]) : List ℝ).length = 8 := rfl
  rw [hL, nsegs_840, winScale4_2 8 (by norm_num), Finset.sum_range_succ, Finset.sum_range_succ,
    Finset.sum_range_zero, dft_c4x02, dft_c4x12, dft_c4y02, dft_c4y12]
  simp [Complex.ext_iff]

lemma welch_c4x_0 : welch [(-2 : ℝ), 2, 0, 0, -1, 0, 1, 0] 4 4 0 0
    = 1 / 6 := by
  rw [welch]
  have hL : (([(-2 : ℝ), 2, 0, 0, -1, 0, 1, 0]) : List ℝ).length = 8 := rfl
  rw [hL, nsegs_840, winScale4_0 8 (by norm_num), Finset.sum_range_succ, Finset.sum_range_succ,
    Finset.sum_range_zero, dft_c4x00, dft_c4x10]
  norm_num

lemma welch_c4x_1 : welch [(-2 : ℝ), 2, 0, 0, -1, 0, 1, 0] 4 4 0 1
    = 1 / 3 := by
  rw [welch]
  have hL : (([(-2 : ℝ), 2, 0, 0, -1, 0, 1, 0]) : List ℝ).length = 8 := rfl
  rw [hL, nsegs_840, winScale4_1 8 (by norm_num), Finset.sum_range_succ, Finset.sum_range_succ,
    Finset.sum_range_zero, dft_c4x01, dft_c4x11]
  simp

lemma welch_c4x_2 : welch [(-2 : ℝ), 2, 0, 0, -1, 0, 1, 0] 4 4 0 2
    = 1 / 6 := by
  rw [welch]
  have hL : (([(-2 : ℝ), 2, 0, 0, -1, 0, 1, 0]) : List ℝ).length = 8 := rfl
  rw [hL, nsegs_840, winScale4_2 8 (by norm_num), Finset.sum_range_succ, Finset.sum_range_succ,
    Finset.sum_range_zero, dft_c4x02, dft_c4x12]
  simp

lemma welch_c4y_0 : welch [(-2 : ℝ), 0, 0, 2, -5, 2, 1, 2] 4 4 0 0
    = 5 / 6 := by
  rw [welch]
  have hL : (([(-2 : ℝ), 0, 0, 2, -5, 2, 1, 2]) : List ℝ).length = 8 := rfl
  rw [hL, nsegs_840, winScale4_0 8 (by norm_num), Finset.sum_range_succ, Finset.sum_range_succ,
    Finset.sum_range_zero, dft_c4y00, dft_c4y10]
  norm_num [Complex.normSq_apply]

lemma welch_c4y_1 : welch [(-2 : ℝ), 0, 0, 2, -5, 2, 1, 2] 4 4 0 1
    = 1 / 3 := by
  rw [welch]
  have hL : (([(-2 : ℝ), 0, 0, 2, -5, 2, 1, 2]) : List ℝ).length = 8 := rfl
  rw [hL, nsegs_840, winScale4_1 8 (by norm_num), Finset.sum_range_succ, Finset.sum_range_succ,
    Finset.sum_range_zero, dft_c4y01, dft_c4y11]
  simp

lemma welch_c4y_2 : welch [(-2 : ℝ), 0, 0, 2, -5, 2, 1, 2] 4 4 0 2
    = 1 / 6 := by
  rw [welch]
  have hL : (([(-2 : ℝ), 0, 0, 2, -5, 2, 1, 2]) : List ℝ).length = 8 := rfl
  rw [hL, nsegs_840, winScale4_2 8 (by norm_num), Finset.sum_range_succ, Finset.sum_range_succ,
    Finset.sum_range_zero, dft_c4y02, dft_c4y12]
  simp

lemma csd_c6w_0 : csd [(0 : ℝ), 2, 0, -2] [(-4 : ℝ), 2, 0, 2] 4 4 0 0
    = 0 := by
  rw [csd]
  have hL : (([(0 : ℝ), 2, 0, -2]) : List ℝ).length = 4 := rfl
  rw [hL, nsegs_440, winScale4_0 4 (by norm_num), Finset.sum_range_succ, Finset.sum_range_zero,
    dft_c6wx0, dft_c6wy0]
  simp

lemma csd_c6w_1 : csd [(0 : ℝ), 2, 0, -2] [(-4 : ℝ), 2, 0, 2] 4 4 0 1
    = 0 := by
  rw [csd]
  have hL : (([(0 : ℝ), 2, 0, -2]) : List ℝ).length = 4 := rfl
  rw [hL, nsegs_440, winScale4_1 4 (by norm_num), Finset.sum_range_succ, Finset.sum_range_zero,
    dft_c6wx1, dft_c6wy1]
  simp

lemma csd_c6w_2 : csd [(0 : ℝ), 2, 0, -2] [(-4 : ℝ), 2, 0, 2] 4 4 0 2
    = 0 := by
  rw [csd]
  have hL : (([(0 : ℝ), 2, 0, -2]) : List ℝ).length = 4 := rfl
  rw [hL, nsegs_440, winScale4_2 4 (by norm_num), Finset.sum_range_succ, Finset.sum_range_zero,
    dft_c6wx2, dft_c6wy2]
  simp

lemma welch_c6wx_0 : welch [(0 : ℝ), 2, 0, -2] 4 4 0 0 = 0 := by
  rw [welch]
  have hL : (([(0 : ℝ), 2, 0, -2]) : List ℝ).length = 4 := rfl
  rw [hL, nsegs_440, winScale4_0 4 (by norm_num), Finset.sum_range_succ, Finset.sum_range_zero,
    dft_c6wx0]
  simp

lemma welch_c6wy_1 : welch [(-4 : ℝ), 2, 0, 2] 4 4 0 1 = 0 := by
  rw [welch]
  have hL : (([(-4 : ℝ), 2, 0, 2]) : List ℝ).length = 4 := rfl
  rw [hL, nsegs_440, winScale4_1 4 (by norm_num), Finset.sum_range_succ, Finset.sum_range_zero,
    dft_c6wy1]
  simp

lemma welch_c6wx_2 : welch [(0 : ℝ), 2, 0, -2] 4 4 0 2 = 0 := by
  rw [welch]
  have hL : (([(0 : ℝ), 2, 0, -2]) : List ℝ).length = 4 := rfl
  rw [hL, nsegs_440, winScale4_2 4 (by norm_num), Finset.sum_range_succ, Finset.sum_range_zero,
    dft_c6wx2]
  simp

lemma csd_c6c_2 : csd [(-2 : ℝ), 2, 0, 0] [(-1 : ℝ), 0, 1, 0] 4 4 0 2
    = ((-1 / 6 : ℝ) : ℂ) := by
  rw [csd]
  have hL : (([(-2 : ℝ), 2, 0, 0]) : List ℝ).length = 4 := rfl
  rw [hL, nsegs_440, winScale4_2 4 (by norm_num), Finset.sum_range_succ, Finset.sum_range_zero,
    dft_c6cx2, dft_c6cy2]
  simp [Complex.ext_iff]
  norm_num

lemma welch_c6cx_2 : welch [(-2 : ℝ), 2, 0, 0] 4 4 0 2 = 1 / 6 := by
  rw [welch]
  have hL : (([(-2 : ℝ), 2, 0, 0]) : List ℝ).length = 4 := rfl
  rw [hL, nsegs_440, winScale4_2 4 (by norm_num), Finset.sum_range_succ, Finset.sum_range_zero,
    dft_c6cx2]
  simp

lemma welch_c6cy_2 : welch [(-1 : ℝ), 0, 1, 0] 4 4 0 2 = 1 / 6 := by
  rw [welch]
  have hL : (([(-1 : ℝ), 0, 1, 0]) : List ℝ).length = 4 := rfl
  rw [hL, nsegs_440, winScale4_2 4 (by norm_num), Finset.sum_range_succ, Finset.sum_range_zero,
    dft_c6cy2]
  simp

lemma csd_c3w_3 : csd [(0 : ℝ), 0, 0, 2, 0, -2] [(0 : ℝ), 0, 2, -2, 0, 0]
    6 6 3 3 = ((-7 / 18 : ℝ) : ℂ) := by
  rw [csd]
  have hL : (([(0 : ℝ), 0, 0, 2, 0, -2]) : List ℝ).length = 6 := rfl
  rw [hL, nsegs_663, winScale6_3 6 (by norm_num), Finset.sum_range_succ, Finset.sum_range_zero,
    dft_c3wx3, dft_c3wy3]
  simp [Complex.ext_iff, map_ofNat]
  norm_num

lemma welch_c3wx_3 : welch [(0 : ℝ), 0, 0, 2, 0, -2] 6 6 3 3 = 1 / 6 := by
  rw [welch]
  have hL : (([(0 : ℝ), 0, 0, 2, 0, -2]) : List ℝ).length = 6 := rfl
  rw [hL, nsegs_663, winScale6_3 6 (by norm_num), Finset.sum_range_succ, Finset.sum_range_zero,
    dft_c3wx3]
  simp [Complex.normSq_apply]
  norm_num

lemma welch_c3wy_3 : welch [(0 : ℝ), 0, 2, -2, 0, 0] 6 6 3 3 = 49 / 54 := by
  rw [welch]
  have hL : (([(0 : ℝ), 0, 2, -2, 0, 0]) : List ℝ).length = 6 := rfl
  rw [hL, nsegs_663, winScale6_3 6 (by norm_num), Finset.sum_range_succ, Finset.sum_range_zero,
    dft_c3wy3]
  simp [Complex.normSq_apply]
  norm_num

lemma gamma2_c4_0 :
    gamma2 ⟨[(-2 : ℝ), 2, 0, 0, -1, 0, 1, 0], [(-2 : ℝ), 0, 0, 2, -5, 2, 1, 2],
      0, 1, 4⟩ 4 0 0 = 4 / 5 := by
  show Complex.abs (csd [(-2 : ℝ), 2, 0, 0, -1, 0, 1, 0]
      [(-2 : ℝ), 0, 0, 2, -5, 2, 1, 2] 4 4 0 0) ^ 2 /
    (welch [(-2 : ℝ), 2, 0, 0, -1, 0, 1, 0] 4 4 0 0 *
      welch [(-2 : ℝ), 0, 0, 2, -5, 2, 1, 2] 4 4 0 0) = 4 / 5
  rw [csd_c4_0, welch_c4x_0, welch_c4y_0, Complex.abs_ofReal]
  norm_num

lemma gamma2_c4_1 :
    gamma2 ⟨[(-2 : ℝ), 2, 0, 0, -1, 0, 1, 0], [(-2 : ℝ), 0, 0, 2, -5, 2, 1, 2],
      0, 1, 4⟩ 4 0 1 = 0 := by
  show Complex.abs (csd [(-2 : ℝ), 2, 0, 0, -1, 0, 1, 0]
      [(-2 : ℝ), 0, 0, 2, -5, 2, 1, 2] 4 4 0 1) ^ 2 /
    (welch [(-2 : ℝ), 2, 0, 0, -1, 0, 1, 0] 4 4 0 1 *
      welch [(-2 : ℝ), 0, 0, 2, -5, 2, 1, 2] 4 4 0 1) = 0
  rw [csd_c4_1]
  simp

lemma gamma2_c4_2 :
    gamma2 ⟨[(-2 : ℝ), 2, 0, 0, -1, 0, 1, 0], [(-2 : ℝ), 0, 0, 2, -5, 2, 1, 2],
      0, 1, 4⟩ 4 0 2 = 0 := by
  show Complex.abs (csd [(-2 : ℝ), 2, 0, 0, -1, 0, 1, 0]
      [(-2 : ℝ), 0, 0, 2, -5, 2, 1, 2] 4 4 0 2) ^ 2 /
    (welch [(-2 : ℝ), 2, 0, 0, -1, 0, 1, 0] 4 4 0 2 *
      welch [(-2 : ℝ), 0, 0, 2, -5, 2, 1, 2] 4 4 0 2) = 0
  rw [csd_c4_2]
  simp

lemma gamma2_c6w_all (j : ℕ) (hj : j < 3) :
    gamma2 ⟨[(0 : ℝ), 2, 0, -2], [(-4 : ℝ), 2, 0, 2], 0, 1, 4⟩ 4 0 j = 0 := by
  show Complex.abs (csd [(0 : ℝ), 2, 0, -2] [(-4 : ℝ), 2, 0, 2] 4 4 0 j) ^ 2 /
    (welch [(0 : ℝ), 2, 0, -2] 4 4 0 j * welch [(-4 : ℝ), 2, 0, 2] 4 4 0 j)
      = 0
  interval_cases j
  · rw [csd_c6w_0]; simp
  · rw [csd_c6w_1]; simp
  · rw [csd_c6w_2]; simp

lemma gamma2_c6c_2 :
    gamma2 ⟨[(-2 : ℝ), 2, 0, 0], [(-1 : ℝ), 0, 1, 0], 0, 1, 4⟩ 4 0 2 = 1 := by
  show Complex.abs (csd [(-2 : ℝ), 2, 0, 0] [(-1 : ℝ), 0, 1, 0] 4 4 0 2) ^ 2 /
    (welch [(-2 : ℝ), 2, 0, 0] 4 4 0 2 * welch [(-1 : ℝ), 0, 1, 0] 4 4 0 2)
      = 1
  rw [csd_c6c_2, welch_c6cx_2, welch_c6cy_2, Complex.abs_ofReal]
  norm_num

lemma gamma2_c3w_3 :
    gamma2 ⟨[(0 : ℝ), 0, 0, 2, 0, -2], [(0 : ℝ), 0, 2, -2, 0, 0], 0, 1, 6⟩
      6 3 3 = 1 := by
  show Complex.abs (csd [(0 : ℝ), 0, 0, 2, 0, -2] [(0 : ℝ), 0, 2, -2, 0, 0]
      6 6 3 3) ^ 2 /
    (welch [(0 : ℝ), 0, 0, 2, 0, -2] 6 6 3 3 *
      welch [(0 : ℝ), 0, 2, -2, 0, 0] 6 6 3 3) = 1
  rw [csd_c3w_3, welch_c3wx_3, welch_c3wy_3, Complex.abs_ofReal]
  norm_num

lemma cut_c4x :
    ind_fmax_fit ⟨[(-2 : ℝ), 2, 0, 0, -1, 0, 1, 0],
      [(-2 : ℝ), 0, 0, 2, -5, 2, 1, 2], 0, 1, 4⟩ 4 0 = some 0 := by
  rw [ind_fmax_fit, ind_tmp]
  have hr : List.range (nbins 4) = [0, 1, 2] := by
    rw [show nbins 4 = 3 from rfl]
    rfl
  rw [hr]
  have h0 : (0.1 : ℝ) ≤ gamma2 ⟨[(-2 : ℝ), 2, 0, 0, -1, 0, 1, 0],
      [(-2 : ℝ), 0, 0, 2, -5, 2, 1, 2], 0, 1, 4⟩ 4 0 0 := by
    rw [gamma2_c4_0]
    norm_num
  have h1 : ¬ (0.1 : ℝ) ≤ gamma2 ⟨[(-2 : ℝ), 2, 0, 0, -1, 0, 1, 0],
      [(-2 : ℝ), 0, 0, 2, -5, 2, 1, 2], 0, 1, 4⟩ 4 0 1 := by
    rw [gamma2_c4_1]
    norm_num
  have h2 : ¬ (0.1 : ℝ) ≤ gamma2 ⟨[(-2 : ℝ), 2, 0, 0, -1, 0, 1, 0],
      [(-2 : ℝ), 0, 0, 2, -5, 2, 1, 2], 0, 1, 4⟩ 4 0 2 := by
    rw [gamma2_c4_2]
    norm_num
  simp [List.filter, h0, h1, h2]

lemma cut_c6w :
    ind_fmax_fit ⟨[(0 : ℝ), 2, 0, -2], [(-4 : ℝ), 2, 0, 2], 0, 1, 4⟩ 4 0
      = none := by
  rw [ind_fmax_fit, ind_tmp]
  have hr : List.range (nbins 4) = [0, 1, 2] := by
    rw [show nbins 4 = 3 from rfl]
    rfl
  rw [hr]
  have h0 := gamma2_c6w_all 0 (by norm_num)
  have h1 := gamma2_c6w_all 1 (by norm_num)
  have h2 := gamma2_c6w_all 2 (by norm_num)
  have hno : ¬ (0.1 : ℝ) ≤ 0 := by norm_num
  simp [List.filter, h0, h1, h2, hno]

lemma cut_c6c :
    ind_fmax_fit ⟨[(-2 : ℝ), 2, 0, 0], [(-1 : ℝ), 0, 1, 0], 0, 1, 4⟩ 4 0
      = some 2 := by
  rw [ind_fmax_fit, ind_tmp]
  have h2 : (0.1 : ℝ) ≤ gamma2 ⟨[(-2 : ℝ), 2, 0, 0], [(-1 : ℝ), 0, 1, 0],
      0, 1, 4⟩ 4 0 2 := by
    rw [gamma2_c6c_2]
    norm_num
  exact getLast_filter_range_top _ 2 (by simp [h2])

lemma cut_c3w :
    ind_fmax_fit ⟨[(0 : ℝ), 0, 0, 2, 0, -2], [(0 : ℝ), 0, 2, -2, 0, 0],
      0, 1, 6⟩ 6 3 = some 3 := by
  rw [ind_fmax_fit, ind_tmp]
  have h3 : (0.1 : ℝ) ≤ gamma2 ⟨[(0 : ℝ), 0, 0, 2, 0, -2],
      [(0 : ℝ), 0, 2, -2, 0, 0], 0, 1, 6⟩ 6 3 3 := by
    rw [gamma2_c3w_3]
    norm_num
  exact getLast_filter_range_top _ 3 (by simp [h3])

/-- C4 counterexample: at this two-segment input the coherence is
`[4/5, 0, 0]`, so the last bin at or above the `0.1` threshold is bin 0
— the cutoff is 0, outside the `[1, len-1]` range the claim asserts. -/
theorem C4_counterexample :
    ind_fmax_fit ⟨[(-2 : ℝ), 2, 0, 0, -1, 0, 1, 0],
      [(-2 : ℝ), 0, 0, 2, -5, 2, 1, 2], 0, 1, 4⟩ 4 0 = some 0 ∧
    ¬ (1 ≤ (0 : ℕ)) :=
  ⟨cut_c4x, by norm_num⟩

/-- C4 witness: the amended cutoff characterization applied at the
cutoff-0 input. -/
theorem C4_witness :
    ((0.1 ≤ gamma2 ⟨[(-2 : ℝ), 2, 0, 0, -1, 0, 1, 0],
        [(-2 : ℝ), 0, 0, 2, -5, 2, 1, 2], 0, 1, 4⟩ 4 0 0 ∧
      ∀ j, 0 < j → j < nbins 4 →
        gamma2 ⟨[(-2 : ℝ), 2, 0, 0, -1, 0, 1, 0],
          [(-2 : ℝ), 0, 0, 2, -5, 2, 1, 2], 0, 1, 4⟩ 4 0 j < 0.1) ∧
    (0 : ℕ) ≤ nbins 4 - 1 ∧
    (∀ r, compute_freqdomain ⟨[(-2 : ℝ), 2, 0, 0, -1, 0, 1, 0],
        [(-2 : ℝ), 0, 0, 2, -5, 2, 1, 2], 0, 1, 4⟩ 4 0 = .ok r →
      r.ind_fmax_fit = 0 ∧
      some r.P = polyfit1 (((f_Pxy (4 : ℝ) 4).drop 1).take (0 - 1))
        (unwrap (phi_xy ⟨[(-2 : ℝ), 2, 0, 0, -1, 0, 1, 0],
          [(-2 : ℝ), 0, 0, 2, -5, 2, 1, 2], 0, 1, 4⟩ 4 0 0)))) :=
  C4_cutoff_last_index ⟨[(-2 : ℝ), 2, 0, 0, -1, 0, 1, 0],
    [(-2 : ℝ), 0, 0, 2, -5, 2, 1, 2], 0, 1, 4⟩ 4 0 0 cut_c4x

/-- C6 counterexample: at this single-segment input the coherence is 1
at every nonvanishing bin, the cutoff is 2, the fit range `[1, 2)` holds
exactly ONE point — and `compute_freqdomain` does NOT fail: it returns a
numeric result from the rank-deficient one-point fit (numpy only emits
a `RankWarning`). -/
theorem C6_counterexample :
    ind_fmax_fit ⟨[(-2 : ℝ), 2, 0, 0], [(-1 : ℝ), 0, 1, 0], 0, 1, 4⟩ 4 0
      = some 2 ∧
    (((f_Pxy (4 : ℝ) 4).drop 1).take (2 - 1)).length = 1 ∧
    ∃ r, compute_freqdomain ⟨[(-2 : ℝ), 2, 0, 0], [(-1 : ℝ), 0, 1, 0],
      0, 1, 4⟩ 4 0 = Except.ok r := by
  refine ⟨cut_c6c, ?_, ?_⟩
  · rw [List.length_take, List.length_drop, f_Pxy_length]
    rfl
  · rw [compute_freqdomain, cut_c6c]
    exact ⟨_, rfl⟩

/-- C6 witness: the amended explicit-failure theorem applied at an input
whose coherence is 0 at every bin, where `ind_tmp` is empty and the code
stops with the `IndexError` from `ind_tmp[-1]`. -/
theorem C6_witness :
    ind_fmax_fit ⟨[(0 : ℝ), 2, 0, -2], [(-4 : ℝ), 2, 0, 2], 0, 1, 4⟩ 4 0
      = none ∧
    compute_freqdomain ⟨[(0 : ℝ), 2, 0, -2], [(-4 : ℝ), 2, 0, 2], 0, 1, 4⟩
      4 0 = .error .indexError :=
  ⟨cut_c6w, (C6_explicit_failures ⟨[(0 : ℝ), 2, 0, -2],
    [(-4 : ℝ), 2, 0, 2], 0, 1, 4⟩ 4 0).1 cut_c6w⟩

/-- C3 witness: the velocity-formula theorem applied at a single-segment
input whose Nyquist-bin coherence is 1, giving cutoff 3 and a two-point
fit range. -/
theorem C3_witness :
    ind_fmax_fit ⟨[(0 : ℝ), 0, 0, 2, 0, -2], [(0 : ℝ), 0, 2, -2, 0, 0],
      0, 1, 6⟩ 6 3 = some 3 ∧
    ∃ r, compute_freqdomain ⟨[(0 : ℝ), 0, 0, 2, 0, -2],
        [(0 : ℝ), 0, 2, -2, 0, 0], 0, 1, 6⟩ 6 3 = .ok r ∧
      r.Ucv = ((1 : ℝ) - 0) /
        olsSlope (((f_Pxy (6 : ℝ) 6).drop 1).take (3 - 1))
          (unwrap (phi_xy ⟨[(0 : ℝ), 0, 0, 2, 0, -2],
            [(0 : ℝ), 0, 2, -2, 0, 0], 0, 1, 6⟩ 6 3 3)) * (2 * Real.pi) :=
  ⟨cut_c3w, C3_freq_velocity_formula ⟨[(0 : ℝ), 0, 0, 2, 0, -2],
    [(0 : ℝ), 0, 2, -2, 0, 0], 0, 1, 6⟩ 6 3 3 (by norm_num) (by norm_num)
    cut_c3w (le_refl 3)⟩
